import Mathlib

/-!
Shallow embedding of the `detonito_core` constraint-analysis layer
(`src/detonito_core/src/analysis/constraints.rs`, `observation.rs`, `types.rs`).

Machine integers are modelled as `Nat`/`Int` with explicit range checks where
the source's checked arithmetic matters (u8 `checked_add_signed` in
`apply_delta`); fallible lookups return `Option`.  2D `ndarray::Array2` grids
are modelled as a dimension pair plus a total lookup function (all indexing in
the verified paths stays in bounds, which is itself one of the proved facts).
-/

namespace Detonito

/-- Single coordinate axis (`u8` in the source). -/
abbrev Coord := Nat

/-- Count type for mine counts and total-cell counts (`u16` in the source). -/
abbrev CellCount := Nat

/-- Two-dimensional coordinates `(x, y)` (a pair of `Coord`, spelled out as
`Nat` so that arithmetic automation sees through the alias). -/
abbrev Coord2 := Nat × Nat

/-- Saturating `u16` multiplication of two `u8` axis sizes (`mult` in `types.rs`). -/
def mult (a b : Coord) : CellCount := min (a * b) 65535

/-- The fixed 8-entry displacement list (`DISPLACEMENTS` in `types.rs`). -/
def DISPLACEMENTS : List (Int × Int) :=
  [(-1, -1), (0, -1), (1, -1), (-1, 0), (1, 0), (-1, 1), (0, 1), (1, 1)]

/-- Applies `delta` to `coords`, returning a value only when the checked `u8`
additions succeed (result in `0..256`) and the result stays inside `bounds`
(`apply_delta` in `types.rs`). -/
def apply_delta (coords : Coord2) (delta : Int × Int) (bounds : Coord2) : Option Coord2 :=
  if (coords.1 : Int) + delta.1 < 0 ∨ 256 ≤ (coords.1 : Int) + delta.1 then none
  else if (bounds.1 : Int) ≤ (coords.1 : Int) + delta.1 then none
  else if (coords.2 : Int) + delta.2 < 0 ∨ 256 ≤ (coords.2 : Int) + delta.2 then none
  else if (bounds.2 : Int) ≤ (coords.2 : Int) + delta.2 then none
  else some (((coords.1 : Int) + delta.1).toNat, ((coords.2 : Int) + delta.2).toNat)

/-- The neighbor iterator (`NeighborIter` in `types.rs`) as the list of its
yielded items: the displacements are tried in their fixed order and the `none`
results are skipped. -/
def neighborList (center : Coord2) (bounds : Coord2) : List Coord2 :=
  DISPLACEMENTS.filterMap (fun d => apply_delta center d bounds)

/-- A 2D array (`ndarray::Array2` in the source): a dimension pair plus a
lookup function. -/
structure Grid (α : Type) where
  dim : Nat × Nat
  get : Coord2 → α

/-- The `iter_neighbors` extension method: bounds are the grid's own dimensions. -/
def Grid.iterNeighbors {α : Type} (g : Grid α) (index : Coord2) : List Coord2 :=
  neighborList index g.dim

/-- Board observation (`analysis/observation.rs`). -/
structure Observation where
  size : Coord2
  mine_count : Option CellCount
  revealed : Grid (Option Nat)
  flags : Grid Bool

/-- Flag-handling policy (`FlagSemantics` in `constraints.rs`). -/
inductive FlagSemantics where
  | Soft
  | Strict
deriving DecidableEq, Repr

/-- Mine-count policy (`MineCountUsage` in `constraints.rs`). -/
inductive MineCountUsage where
  | UseIfKnown
  | Ignore
deriving DecidableEq, Repr

/-- Analysis configuration (`AnalysisConfig` in `constraints.rs`). -/
structure AnalysisConfig where
  flag_semantics : FlagSemantics
  mine_count_usage : MineCountUsage
deriving DecidableEq, Repr

/-- One unknown cell (`ConstraintVariable` in `constraints.rs`). -/
structure ConstraintVariable where
  id : Nat
  coords : Coord2
  flagged : Bool
deriving DecidableEq, Repr

/-- Equation kind (`EquationKind` in `constraints.rs`). -/
inductive EquationKind where
  | LocalClue (clue : Coord2)
  | GlobalMineCount
deriving DecidableEq, Repr

/-- One linear constraint (`ConstraintEquation` in `constraints.rs`). -/
structure ConstraintEquation where
  id : Nat
  kind : EquationKind
  variable_ids : List Nat
  target_mines : CellCount
deriving DecidableEq, Repr

/-- A connected component (`ConstraintComponent` in `constraints.rs`). -/
structure ConstraintComponent where
  variable_ids : List Nat
  equation_ids : List Nat
deriving DecidableEq, Repr

/-- The output problem bundle (`ConstraintProblem` in `constraints.rs`); the
field `variables` of the source is spelled `variables'` because `variables` is
a reserved word in Lean. -/
structure ConstraintProblem where
  variables' : List ConstraintVariable
  equations : List ConstraintEquation
  components : List ConstraintComponent
  unconstrained_variable_ids : List Nat
deriving DecidableEq, Repr

/-- Detected infeasibility reports (`Contradiction` in `constraints.rs`).
`LocalClueImpossible.target_mines` is an `i16` in the source and
`GlobalMineCountImpossible.target_mines` an `i32`; both are embedded as `Int`
(the source values provably never overflow those widths). -/
inductive Contradiction where
  | InvalidObservationShape
  | InvalidMineCount (mine_count : CellCount) (max_cells : CellCount)
  | LocalClueImpossible (clue : Coord2) (target_mines : Int) (available_variables : Nat)
  | GlobalMineCountImpossible (target_mines : Int) (available_variables : Nat)
deriving DecidableEq, Repr

/-- Summary counters (`ConstraintStats` in `constraints.rs`). -/
structure ConstraintStats where
  variable_count : Nat
  local_equation_count : Nat
  global_equation_count : Nat
  component_count : Nat
  max_component_variables : Nat
  contradiction_count : Nat
deriving DecidableEq, Repr

/-- Full build output (`ConstraintBuildOutput` in `constraints.rs`). -/
structure ConstraintBuildOutput where
  problem : ConstraintProblem
  contradictions : List Contradiction
  stats : ConstraintStats
deriving DecidableEq, Repr

/-- The coordinate scan order of `build_constraints`: outer loop over `x`
(`0..x_end`), inner loop over `y` (`0..y_end`). -/
def scanCoords (size : Coord2) : List Coord2 :=
  (List.range size.1).flatMap (fun x => (List.range size.2).map (fun y => (x, y)))

/-- The hidden cells of an observation, in scan order: exactly the coordinates
whose `revealed` entry is `None`.  Variable enumeration pushes one variable per
such cell, so ids are positions in this list. -/
def hiddenCoords (obs : Observation) : List Coord2 :=
  (scanCoords obs.size).filter (fun c => (obs.revealed.get c).isNone)

/-- Builds the variable list from the hidden cells, numbering from `k`
(the source pushes `ConstraintVariable { id: variables.len(), coords, flagged }`
per hidden cell in scan order). -/
def buildVarsFrom (obs : Observation) : Nat → List Coord2 → List ConstraintVariable
  | _, [] => []
  | k, c :: rest => ⟨k, c, obs.flags.get c⟩ :: buildVarsFrom obs (k + 1) rest

/-- The full variable list of `build_constraints` (ids `0, 1, ...` in scan
order over hidden cells). -/
def buildVariables (obs : Observation) : List ConstraintVariable :=
  buildVarsFrom obs 0 (hiddenCoords obs)

/-- Index of the first occurrence of a coordinate in a list. -/
def idxOf? : List Coord2 → Coord2 → Option Nat
  | [], _ => none
  | a :: rest, c => if a = c then some 0 else (idxOf? rest c).map (· + 1)

/-- The `variable_ids` lookup grid: maps a coordinate to the id it was assigned
during variable enumeration (its position in the hidden-cell scan), `none` for
cells that got no variable. -/
def variableIdAt (obs : Observation) (c : Coord2) : Option Nat :=
  idxOf? (hiddenCoords obs) c

/-- Running state of the per-clue neighbor scan: the adjusted target (an `i16`
in the source, embedded as `Int`) and the included variable ids in push order. -/
structure LocalScan where
  target : Int
  vars : List Nat
deriving DecidableEq, Repr

/-- Scans the up-to-8 neighbors of a revealed clue (`build_constraints`,
per-neighbor loop): revealed neighbors are skipped; a hidden neighbor either
decrements the target (Strict semantics and flagged) or contributes its
variable id.  The source's `expect("variable id should exist")` is modelled by
`Option.getD` together with the separately proved fact that the lookup always
succeeds for a validated observation. -/
def scanClueNeighbors (obs : Observation) (cfg : AnalysisConfig) (clue : Coord2)
    (clue_mines : Nat) : LocalScan :=
  (obs.revealed.iterNeighbors clue).foldl
    (fun st neighbor =>
      if (obs.revealed.get neighbor).isSome then st
      else
        let var_id := (variableIdAt obs neighbor).getD 0
        let flagged := obs.flags.get neighbor
        if cfg.flag_semantics = FlagSemantics.Strict ∧ flagged then
          { st with target := st.target - 1 }
        else
          { st with vars := st.vars ++ [var_id] })
    { target := (clue_mines : Int), vars := [] }

/-- One step of the local-equation loop: for a revealed cell, either record a
`LocalClueImpossible` contradiction (infeasible target) or append a `LocalClue`
equation whose id is the current equation count. -/
def localStep (obs : Observation) (cfg : AnalysisConfig)
    (acc : List ConstraintEquation × List Contradiction) (clue : Coord2) :
    List ConstraintEquation × List Contradiction :=
  match obs.revealed.get clue with
  | none => acc
  | some clue_mines =>
    let st := scanClueNeighbors obs cfg clue clue_mines
    if st.target < 0 ∨ (st.vars.length : Int) < st.target then
      (acc.1, acc.2 ++ [Contradiction.LocalClueImpossible clue st.target st.vars.length])
    else
      (acc.1 ++ [⟨acc.1.length, EquationKind.LocalClue clue, st.vars, st.target.toNat⟩], acc.2)

/-- The local-equation pass of `build_constraints`: scan all coordinates in
scan order, processing every revealed cell. -/
def buildLocalEquations (obs : Observation) (cfg : AnalysisConfig) :
    List ConstraintEquation × List Contradiction :=
  (scanCoords obs.size).foldl (localStep obs cfg) ([], [])

/-- The global-equation pass of `build_constraints`: when the policy is
`UseIfKnown` and the mine count is known, scan all variables in id order,
excluding Strict-flagged ones (decrementing the target); infeasible targets
yield a `GlobalMineCountImpossible` contradiction instead of an equation.
Returns the extended equation list, the new contradictions, and the
`global_equation_count` (0 or 1). -/
def globalScan (cfg : AnalysisConfig) (total_mines : Nat)
    (vars : List ConstraintVariable) : Int × List Nat :=
  vars.foldl
    (fun (st : Int × List Nat) var =>
      if cfg.flag_semantics = FlagSemantics.Strict ∧ var.flagged then
        (st.1 - 1, st.2)
      else
        (st.1, st.2 ++ [var.id]))
    ((total_mines : Int), [])

def buildGlobalEquation (obs : Observation) (cfg : AnalysisConfig)
    (vars : List ConstraintVariable) (eqs : List ConstraintEquation) :
    List ConstraintEquation × List Contradiction × Nat :=
  if cfg.mine_count_usage = MineCountUsage.UseIfKnown then
    match obs.mine_count with
    | some total_mines =>
      let st := globalScan cfg total_mines vars
      if st.1 < 0 ∨ (st.2.length : Int) < st.1 then
        (eqs, [Contradiction.GlobalMineCountImpossible st.1 st.2.length], 0)
      else
        (eqs ++ [⟨eqs.length, EquationKind.GlobalMineCount, st.2, st.1.toNat⟩], [], 1)
    | none => (eqs, [], 0)
  else (eqs, [], 0)

/-- Path-compressed, rank-based disjoint-set structure (`Dsu` in
`constraints.rs`). -/
structure Dsu where
  parent : List Nat
  rank : List Nat
deriving DecidableEq, Repr

/-- Fresh union-find over `0..size` (`Dsu::new`). -/
def Dsu.new (size : Nat) : Dsu :=
  ⟨List.range size, List.replicate size 0⟩

/-- The recursive find with path compression (`Dsu::find`), made total with a
fuel argument; in any parent forest over `n` nodes a chain has length below
`n`, so fuel `parent.length` always suffices on states reachable from
`Dsu.new` (and the fuel-exhausted branch is never taken there). -/
def Dsu.findAux : Nat → Dsu → Nat → Nat × Dsu
  | 0, d, v => (v, d)
  | fuel + 1, d, v =>
    let p := d.parent.getD v v
    if p = v then (v, d)
    else
      let res := Dsu.findAux fuel d p
      (res.1, { res.2 with parent := res.2.parent.set v res.1 })

/-- Find with path compression, returning the root and the updated state. -/
def Dsu.find (d : Dsu) (v : Nat) : Nat × Dsu :=
  Dsu.findAux d.parent.length d v

/-- Union by rank (`Dsu::union`): the lower-rank root is attached below the
higher-rank one (swapping when needed), equal ranks bump the surviving root. -/
def Dsu.union (d : Dsu) (left right : Nat) : Dsu :=
  let resL := d.find left
  let resR := resL.2.find right
  let left_root := resL.1
  let right_root := resR.1
  let d2 := resR.2
  if left_root = right_root then d2
  else
    let roots :=
      if d2.rank.getD left_root 0 < d2.rank.getD right_root 0 then
        (right_root, left_root)
      else
        (left_root, right_root)
    let d3 : Dsu := { d2 with parent := d2.parent.set roots.2 roots.1 }
    if d3.rank.getD roots.1 0 = d3.rank.getD roots.2 0 then
      { d3 with rank := d3.rank.set roots.1 (d3.rank.getD roots.1 0 + 1) }
    else d3

/-- Whether an equation kind is a local clue (the `matches!(equation.kind,
EquationKind::LocalClue { .. })` test). -/
def EquationKind.isLocalClue : EquationKind → Bool
  | EquationKind.LocalClue _ => true
  | EquationKind.GlobalMineCount => false

/-- First pass of `build_components`: for every local-clue equation, mark all
its variables touched and union them with the first one. -/
def markTouched (variable_count : Nat) (equations : List ConstraintEquation) :
    Dsu × List Bool :=
  equations.foldl
    (fun (st : Dsu × List Bool) equation =>
      if equation.kind.isLocalClue then
        match equation.variable_ids with
        | [] => st
        | first :: rest =>
          rest.foldl
            (fun (st2 : Dsu × List Bool) var => (st2.1.union first var, st2.2.set var true))
            (st.1, st.2.set first true)
      else st)
    (Dsu.new variable_count, List.replicate variable_count false)

/-- Replaces the element at position `i` (no-op when out of range), like
indexed assignment into a `Vec` entry that is then mutated in place. -/
def modifyAt {α : Type} : List α → Nat → (α → α) → List α
  | [], _, _ => []
  | a :: rest, 0, f => f a :: rest
  | a :: rest, i + 1, f => a :: modifyAt rest i f

/-- Association-list lookup standing for `BTreeMap::get` (keys are inserted at
most once, so first-match lookup is exact). -/
def lookupIdx (root : Nat) : List (Nat × Nat) → Option Nat
  | [] => none
  | p :: rest => if p.1 = root then some p.2 else lookupIdx root rest

/-- State of the grouping pass: union-find (mutated by the `find` calls), the
root-to-component-index map, and the components built so far. -/
structure GroupState where
  dsu : Dsu
  rootToComponent : List (Nat × Nat)
  components : List ConstraintComponent

/-- One step of the grouping pass for variable `var`: untouched variables are
skipped; a touched one is appended to the component of its root, a fresh empty
component being registered first when the root is new. -/
def groupStep (touched : List Bool) (st : GroupState) (var : Nat) : GroupState :=
  if touched.getD var false then
    let res := st.dsu.find var
    let root := res.1
    match lookupIdx root st.rootToComponent with
    | some idx =>
      { st with
        dsu := res.2
        components :=
          modifyAt st.components idx
            (fun comp => { comp with variable_ids := comp.variable_ids ++ [var] }) }
    | none =>
      let comps := st.components ++ [⟨[], []⟩]
      let idx := comps.length - 1
      { dsu := res.2
        rootToComponent := st.rootToComponent ++ [(root, idx)]
        components :=
          modifyAt comps idx
            (fun comp => { comp with variable_ids := comp.variable_ids ++ [var] }) }
  else st

/-- The grouping pass of `build_components`: scan variables `0..variable_count`
in order, grouping the touched ones by union-find root (components appear in
first-seen-root order). -/
def groupTouched (variable_count : Nat) (dsu : Dsu) (touched : List Bool) : GroupState :=
  (List.range variable_count).foldl (groupStep touched) ⟨dsu, [], []⟩

/-- Removes consecutive duplicates (`Vec::dedup`). -/
def dedupConsec : List Nat → List Nat
  | [] => []
  | [a] => [a]
  | a :: b :: rest =>
    if a = b then dedupConsec (b :: rest) else a :: dedupConsec (b :: rest)

/-- One step of the equation-attachment pass: for a local-clue equation,
collect the roots of its touched variables (a `BTreeSet`, i.e. ascending and
deduplicated), then append the equation's id to each root's component. -/
def attachStep (touched : List Bool)
    (st : List ConstraintComponent × Dsu × List (Nat × Nat)) (equation : ConstraintEquation) :
    List ConstraintComponent × Dsu × List (Nat × Nat) :=
  if equation.kind.isLocalClue then
    let scanned := equation.variable_ids.foldl
      (fun (acc : List Nat × Dsu) var =>
        if touched.getD var false then
          let res := acc.2.find var
          (acc.1 ++ [res.1], res.2)
        else acc)
      ([], st.2.1)
    let roots := dedupConsec (List.insertionSort (· ≤ ·) scanned.1)
    let comps := roots.foldl
      (fun comps root =>
        match lookupIdx root st.2.2 with
        | some idx =>
          modifyAt comps idx
            (fun comp => { comp with equation_ids := comp.equation_ids ++ [equation.id] })
        | none => comps)
      st.1
    (comps, scanned.2, st.2.2)
  else st

/-- The equation-attachment pass of `build_components`. -/
def attachEquations (equations : List ConstraintEquation)
    (components : List ConstraintComponent) (dsu : Dsu)
    (rootToComponent : List (Nat × Nat)) (touched : List Bool) :
    List ConstraintComponent :=
  (equations.foldl (attachStep touched) (components, dsu, rootToComponent)).1

/-- Final normalization pass: sort each component's variable ids and equation
ids ascending and dedupe the equation ids. -/
def sortComponents (components : List ConstraintComponent) : List ConstraintComponent :=
  components.map
    (fun comp =>
      { variable_ids := List.insertionSort (· ≤ ·) comp.variable_ids
        equation_ids := dedupConsec (List.insertionSort (· ≤ ·) comp.equation_ids) })

/-- Componentization (`build_components` in `constraints.rs`): union variables
through local-clue equations, group touched variables by root, attach local
equation ids, normalize, and collect untouched variables as unconstrained. -/
def build_components (variable_count : Nat) (equations : List ConstraintEquation) :
    List ConstraintComponent × List Nat :=
  let marked := markTouched variable_count equations
  let touched := marked.2
  let grouped := groupTouched variable_count marked.1 touched
  let attached := attachEquations equations grouped.components grouped.dsu
    grouped.rootToComponent touched
  let components := sortComponents attached
  let unconstrained_variable_ids :=
    (List.range variable_count).filter (fun var => ! touched.getD var false)
  (components, unconstrained_variable_ids)

/-- The empty result used for fatal validation failures (`empty_output` in
`constraints.rs`). -/
def empty_output (contradictions : List Contradiction) : ConstraintBuildOutput :=
  { problem :=
      { variables' := []
        equations := []
        components := []
        unconstrained_variable_ids := [] }
    contradictions := contradictions
    stats :=
      { variable_count := 0
        local_equation_count := 0
        global_equation_count := 0
        component_count := 0
        max_component_variables := 0
        contradiction_count := contradictions.length } }

/-- The main (post-validation) body of `build_constraints`: enumerate
variables, build local equations, optionally the global equation, then
componentize and assemble stats.  `local_equation_count` counts the appended
local equations and the contradictions are recorded in emission order (local
pass first, then the global pass). -/
def build_main (obs : Observation) (cfg : AnalysisConfig) : ConstraintBuildOutput :=
  let vars := buildVariables obs
  let localRes := buildLocalEquations obs cfg
  let globalRes := buildGlobalEquation obs cfg vars localRes.1
  let equations := globalRes.1
  let contradictions := localRes.2 ++ globalRes.2.1
  let compRes := build_components vars.length equations
  let components := compRes.1
  let max_component_variables :=
    (components.map (fun component => component.variable_ids.length)).foldr max 0
  { problem :=
      { variables' := vars
        equations := equations
        components := components
        unconstrained_variable_ids := compRes.2 }
    contradictions := contradictions
    stats :=
      { variable_count := vars.length
        local_equation_count := localRes.1.length
        global_equation_count := globalRes.2.2
        component_count := components.length
        max_component_variables := max_component_variables
        contradiction_count := contradictions.length } }

/-- The public entry point (`build_constraints` in `constraints.rs`): shape
validation, then mine-count sanity, then the main construction. -/
def build_constraints (obs : Observation) (cfg : AnalysisConfig) : ConstraintBuildOutput :=
  let expected : Nat × Nat := (obs.size.1, obs.size.2)
  if obs.revealed.dim ≠ expected ∨ obs.flags.dim ≠ expected then
    empty_output [Contradiction.InvalidObservationShape]
  else
    match obs.mine_count with
    | some mine_count =>
      if mult obs.size.1 obs.size.2 < mine_count then
        empty_output
          [Contradiction.InvalidMineCount mine_count (mult obs.size.1 obs.size.2)]
      else build_main obs cfg
    | none => build_main obs cfg

/-!
Proof-layer closed forms for the accumulator folds, and concrete observations
used as test inputs.  These are not part of the embedded program; they are
proved equal to (or are evaluated against) the embedded definitions above.
-/

/-- Closed form of the local-equation pass starting at equation id `k`. -/
def localEqsFrom (obs : Observation) (cfg : AnalysisConfig) :
    Nat → List Coord2 → List ConstraintEquation
  | _, [] => []
  | k, clue :: rest =>
    match obs.revealed.get clue with
    | none => localEqsFrom obs cfg k rest
    | some n =>
      let st := scanClueNeighbors obs cfg clue n
      if st.target < 0 ∨ (st.vars.length : Int) < st.target then
        localEqsFrom obs cfg k rest
      else
        ⟨k, EquationKind.LocalClue clue, st.vars, st.target.toNat⟩ ::
          localEqsFrom obs cfg (k + 1) rest

/-- Closed form of the contradictions recorded by the local-equation pass. -/
def localConsFrom (obs : Observation) (cfg : AnalysisConfig) :
    List Coord2 → List Contradiction
  | [] => []
  | clue :: rest =>
    match obs.revealed.get clue with
    | none => localConsFrom obs cfg rest
    | some n =>
      let st := scanClueNeighbors obs cfg clue n
      if st.target < 0 ∨ (st.vars.length : Int) < st.target then
        Contradiction.LocalClueImpossible clue st.target st.vars.length ::
          localConsFrom obs cfg rest
      else localConsFrom obs cfg rest

/-- Sets every listed position of a Boolean list to `true`. -/
def markList (t : List Bool) (vs : List Nat) : List Bool :=
  vs.foldl (fun t v => t.set v true) t

/-- The 5-by-1 test board of `splits_independent_components`: clue 1 at
position 1, clue 0 at position 4, hidden elsewhere, nothing flagged. -/
def obsA : Observation :=
  { size := (5, 1)
    mine_count := none
    revealed :=
      ⟨(5, 1), fun c => if c = (1, 0) then some 1 else if c = (4, 0) then some 0 else none⟩
    flags := ⟨(5, 1), fun _ => false⟩ }

/-- A 2-by-1 board with the left cell hidden and flagged and the right cell a
revealed 0 (the `strict_flags_can_create_clue_contradiction` test board). -/
def obsFlag : Observation :=
  { size := (2, 1)
    mine_count := none
    revealed := ⟨(2, 1), fun c => if c = (1, 0) then some 0 else none⟩
    flags := ⟨(2, 1), fun c => c = (0, 0)⟩ }

/-- A 2-by-2 board with one revealed clue 1 at (1,1) and known mine count 1. -/
def obsB : Observation :=
  { size := (2, 2)
    mine_count := some 1
    revealed := ⟨(2, 2), fun c => if c = (1, 1) then some 1 else none⟩
    flags := ⟨(2, 2), fun _ => false⟩ }

/-- An observation whose grids have the wrong dimensions. -/
def obsBadShape : Observation :=
  { size := (2, 2)
    mine_count := none
    revealed := ⟨(1, 2), fun _ => none⟩
    flags := ⟨(1, 2), fun _ => false⟩ }

/-- A structurally well-shaped 1-by-1 observation whose claimed mine count (2)
exceeds the cell count (1). -/
def obsBadMine : Observation :=
  { size := (1, 1)
    mine_count := some 2
    revealed := ⟨(1, 1), fun _ => none⟩
    flags := ⟨(1, 1), fun _ => false⟩ }

/-- Soft flags, mine count ignored. -/
def cfgSI : AnalysisConfig := ⟨FlagSemantics.Soft, MineCountUsage.Ignore⟩

/-- Strict flags, mine count ignored. -/
def cfgTI : AnalysisConfig := ⟨FlagSemantics.Strict, MineCountUsage.Ignore⟩

/-- Soft flags, mine count used when known. -/
def cfgSU : AnalysisConfig := ⟨FlagSemantics.Soft, MineCountUsage.UseIfKnown⟩

/-! ## Neighborhood lemmas -/

theorem apply_delta_eq_some_iff {c : Coord2} {d : Int × Int} {b : Coord2} {p : Coord2} :
    apply_delta c d b = some p ↔
      0 ≤ (c.1 : Int) + d.1 ∧ (c.1 : Int) + d.1 < 256 ∧ (c.1 : Int) + d.1 < (b.1 : Int) ∧
      0 ≤ (c.2 : Int) + d.2 ∧ (c.2 : Int) + d.2 < 256 ∧ (c.2 : Int) + d.2 < (b.2 : Int) ∧
      (p.1 : Int) = (c.1 : Int) + d.1 ∧ (p.2 : Int) = (c.2 : Int) + d.2 := by
  obtain ⟨cx, cy⟩ := c
  obtain ⟨dx, dy⟩ := d
  obtain ⟨bx, bz⟩ := b
  obtain ⟨px, pz⟩ := p
  simp only [apply_delta]
  split_ifs with h1 h2 h3 h4 <;>
    simp only [Option.some.injEq, Prod.mk.injEq, reduceCtorEq, false_iff]
  · omega
  · omega
  · omega
  · omega
  · constructor
    · rintro ⟨hx, hy⟩
      omega
    · rintro ⟨_, _, _, _, _, _, hx, hy⟩
      omega

theorem mem_neighborList {p c b : Coord2} :
    p ∈ neighborList c b ↔ ∃ d ∈ DISPLACEMENTS, apply_delta c d b = some p := by
  simp [neighborList, List.mem_filterMap]

theorem neighborList_nodup (c b : Coord2) : (neighborList c b).Nodup := by
  refine List.Nodup.filterMap ?_ ?_
  · intro d d' p hp hp'
    rw [Option.mem_def, apply_delta_eq_some_iff] at hp hp'
    have h1 : d.1 = d'.1 := by omega
    have h2 : d.2 = d'.2 := by omega
    exact Prod.ext h1 h2
  · simp [DISPLACEMENTS]

theorem neighborList_length_le (c b : Coord2) : (neighborList c b).length ≤ 8 := by
  have h := List.length_filterMap_le (fun d => apply_delta c d b) DISPLACEMENTS
  simpa [neighborList, DISPLACEMENTS] using h

theorem mem_neighborList_inBounds {p c b : Coord2} (h : p ∈ neighborList c b) :
    p.1 < b.1 ∧ p.2 < b.2 := by
  rw [mem_neighborList] at h
  obtain ⟨d, _, hd⟩ := h
  rw [apply_delta_eq_some_iff] at hd
  omega

/-- Full characterization of the yielded neighbors for `u8`-representable
bounds: exactly the in-bounds cells at Chebyshev distance 1 from the center. -/
theorem mem_neighborList_iff {p c b : Coord2} (hb1 : b.1 ≤ 256) (hb2 : b.2 ≤ 256) :
    p ∈ neighborList c b ↔
      p ≠ c ∧ p.1 < b.1 ∧ p.2 < b.2 ∧
      p.1 ≤ c.1 + 1 ∧ c.1 ≤ p.1 + 1 ∧ p.2 ≤ c.2 + 1 ∧ c.2 ≤ p.2 + 1 := by
  rw [mem_neighborList]
  constructor
  · rintro ⟨d, hd, hp⟩
    rw [apply_delta_eq_some_iff] at hp
    have hne : p ≠ c := by
      intro he
      subst he
      fin_cases hd <;> simp_all <;> omega
    refine ⟨hne, ?_⟩
    fin_cases hd <;> simp_all <;> omega
  · rintro ⟨hne, hx, hy, hd1, hd2, hd3, hd4⟩
    have hne' : p.1 ≠ c.1 ∨ p.2 ≠ c.2 := by
      by_contra hcon
      push_neg at hcon
      exact hne (Prod.ext hcon.1 hcon.2)
    refine ⟨((p.1 : Int) - c.1, (p.2 : Int) - c.2), ?_, ?_⟩
    · have h1 : (p.1 : Int) - c.1 = -1 ∨ (p.1 : Int) - c.1 = 0 ∨ (p.1 : Int) - c.1 = 1 := by
        omega
      have h2 : (p.2 : Int) - c.2 = -1 ∨ (p.2 : Int) - c.2 = 0 ∨ (p.2 : Int) - c.2 = 1 := by
        omega
      have h3 : ¬((p.1 : Int) - c.1 = 0 ∧ (p.2 : Int) - c.2 = 0) := by omega
      simp only [DISPLACEMENTS, List.mem_cons, List.not_mem_nil, or_false, Prod.ext_iff]
      rcases h1 with h1 | h1 | h1 <;> rcases h2 with h2 | h2 | h2 <;> simp_all
    · rw [apply_delta_eq_some_iff]
      omega

/-- C8: for every center coordinate and board bounds (the bounds being
`u8`-representable, as in the source), the neighbor iterator yields exactly the
in-bounds Moore-neighborhood coordinates: at most 8 of them, each exactly once
(no duplicates), never the center, never a coordinate at or beyond the bounds,
with no wraparound on underflow or overflow, in the fixed deterministic order
of the 8-entry displacement list. -/
theorem claim_C8 (center bounds : Coord2) (hb1 : bounds.1 ≤ 256) (hb2 : bounds.2 ≤ 256) :
    (neighborList center bounds).Nodup ∧
    (neighborList center bounds).length ≤ 8 ∧
    (∀ p : Coord2, p ∈ neighborList center bounds ↔
      p ≠ center ∧ p.1 < bounds.1 ∧ p.2 < bounds.2 ∧
      p.1 ≤ center.1 + 1 ∧ center.1 ≤ p.1 + 1 ∧
      p.2 ≤ center.2 + 1 ∧ center.2 ≤ p.2 + 1) ∧
    neighborList center bounds =
      DISPLACEMENTS.filterMap (fun d => apply_delta center d bounds) :=
  ⟨neighborList_nodup center bounds, neighborList_length_le center bounds,
    fun _ => mem_neighborList_iff hb1 hb2, rfl⟩

/-- Witness for C8 at center (1,1), bounds (3,3): all hypotheses hold and the
conclusion is checked on the concrete 8-neighbor list. -/
theorem claim_C8_witness :
    (neighborList (1, 1) (3, 3)).Nodup ∧
    (neighborList (1, 1) (3, 3)).length ≤ 8 ∧
    (∀ p : Coord2, p ∈ neighborList (1, 1) (3, 3) ↔
      p ≠ (1, 1) ∧ p.1 < 3 ∧ p.2 < 3 ∧
      p.1 ≤ 1 + 1 ∧ 1 ≤ p.1 + 1 ∧ p.2 ≤ 1 + 1 ∧ 1 ≤ p.2 + 1) ∧
    neighborList (1, 1) (3, 3) =
      DISPLACEMENTS.filterMap (fun d => apply_delta (1, 1) d (3, 3)) :=
  claim_C8 (1, 1) (3, 3) (by decide) (by decide)

/-! ## Scan order and variable enumeration -/

theorem mem_scanCoords {c s : Coord2} : c ∈ scanCoords s ↔ c.1 < s.1 ∧ c.2 < s.2 := by
  obtain ⟨cx, cy⟩ := c
  simp [scanCoords, List.mem_flatMap, eq_comm]

theorem scanCoords_nodup (s : Coord2) : (scanCoords s).Nodup := by
  apply List.nodup_flatMap.mpr
  constructor
  · intro x _
    exact (List.nodup_range _).map (fun a b h => (Prod.mk.injEq _ _ _ _).mp h |>.2)
  · refine (List.nodup_range s.1).pairwise_of_forall_ne ?_
    intro x _ y _ hxy p hp hq
    simp only [List.mem_map] at hp hq
    obtain ⟨a, _, ha⟩ := hp
    obtain ⟨b, _, hb⟩ := hq
    exact hxy (((Prod.mk.injEq _ _ _ _).mp (ha.trans hb.symm)).1)

theorem hiddenCoords_nodup (obs : Observation) : (hiddenCoords obs).Nodup :=
  (scanCoords_nodup obs.size).filter _

theorem mem_hiddenCoords {obs : Observation} {c : Coord2} :
    c ∈ hiddenCoords obs ↔ c ∈ scanCoords obs.size ∧ obs.revealed.get c = none := by
  simp [hiddenCoords, List.mem_filter, Option.isNone_iff_eq_none]

theorem idxOf?_isSome_of_mem {l : List Coord2} {c : Coord2} : c ∈ l → (idxOf? l c).isSome := by
  induction l with
  | nil => intro h; cases h
  | cons a rest ih =>
    intro h
    by_cases hac : a = c
    · simp [idxOf?, hac]
    · rcases List.mem_cons.mp h with h | h
      · exact absurd h.symm hac
      · simpa [idxOf?, hac] using ih h

theorem idxOf?_eq_some {l : List Coord2} {c : Coord2} {i : Nat}
    (h : idxOf? l c = some i) : l[i]? = some c := by
  induction l generalizing i with
  | nil => simp [idxOf?] at h
  | cons a rest ih =>
    by_cases hac : a = c
    · simp only [idxOf?, if_pos hac, Option.some.injEq] at h
      subst hac
      simp [← h]
    · simp only [idxOf?, if_neg hac, Option.map_eq_some'] at h
      obtain ⟨j, hj, hji⟩ := h
      subst hji
      simpa using ih hj

theorem idxOf?_of_nodup {l : List Coord2} (hnd : l.Nodup) {i : Nat} {c : Coord2}
    (h : l[i]? = some c) : idxOf? l c = some i := by
  induction l generalizing i with
  | nil => simp at h
  | cons a rest ih =>
    cases i with
    | zero =>
      simp only [List.getElem?_cons_zero, Option.some.injEq] at h
      simp [idxOf?, h]
    | succ j =>
      simp only [List.getElem?_cons_succ] at h
      have hm : c ∈ rest := by
        rcases List.getElem?_eq_some.mp h with ⟨hlt, hget⟩
        exact hget ▸ List.getElem_mem hlt
      have hac : a ≠ c := fun he => (List.nodup_cons.mp hnd).1 (he ▸ hm)
      simp [idxOf?, hac, ih (List.nodup_cons.mp hnd).2 h]

theorem idxOf?_lt_length {l : List Coord2} {c : Coord2} {i : Nat}
    (h : idxOf? l c = some i) : i < l.length :=
  (List.getElem?_eq_some.mp (idxOf?_eq_some h)).1

theorem buildVarsFrom_length (obs : Observation) (k : Nat) (l : List Coord2) :
    (buildVarsFrom obs k l).length = l.length := by
  induction l generalizing k with
  | nil => rfl
  | cons a rest ih => simp [buildVarsFrom, ih]

theorem buildVarsFrom_getElem? (obs : Observation) (l : List Coord2) (k i : Nat) :
    (buildVarsFrom obs k l)[i]? =
      (l[i]?).map (fun c => ⟨k + i, c, obs.flags.get c⟩) := by
  induction l generalizing k i with
  | nil => simp [buildVarsFrom]
  | cons a rest ih =>
    cases i with
    | zero => simp [buildVarsFrom]
    | succ j =>
      simp only [buildVarsFrom, List.getElem?_cons_succ, ih (k + 1) j]
      cases rest[j]? <;> simp <;> omega

theorem buildVarsFrom_map_coords (obs : Observation) (k : Nat) (l : List Coord2) :
    (buildVarsFrom obs k l).map (fun v => v.coords) = l := by
  induction l generalizing k with
  | nil => rfl
  | cons a rest ih => simp [buildVarsFrom, ih]

theorem buildVariables_length (obs : Observation) :
    (buildVariables obs).length = (hiddenCoords obs).length :=
  buildVarsFrom_length obs 0 (hiddenCoords obs)

theorem buildVariables_getElem? (obs : Observation) (i : Nat) :
    (buildVariables obs)[i]? =
      ((hiddenCoords obs)[i]?).map (fun c => ⟨i, c, obs.flags.get c⟩) := by
  have h := buildVarsFrom_getElem? obs (hiddenCoords obs) 0 i
  simpa [buildVariables] using h

/-! ## Safety of the variable-id lookup (C9) -/

theorem variableIdAt_isSome_of_hidden (obs : Observation) {c : Coord2}
    (hin : c ∈ scanCoords obs.size) (hhid : obs.revealed.get c = none) :
    (variableIdAt obs c).isSome :=
  idxOf?_isSome_of_mem (mem_hiddenCoords.mpr ⟨hin, hhid⟩)

theorem neighbor_mem_scanCoords (obs : Observation)
    (h1 : obs.revealed.dim = (obs.size.1, obs.size.2))
    {clue nb : Coord2} (hnb : nb ∈ obs.revealed.iterNeighbors clue) :
    nb ∈ scanCoords obs.size := by
  have hnb' : nb ∈ neighborList clue (obs.size.1, obs.size.2) := by
    rw [← h1]
    exact hnb
  have hb := mem_neighborList_inBounds hnb'
  exact mem_scanCoords.mpr hb

theorem scanClueNeighbors_vars_filterMap (obs : Observation) (cfg : AnalysisConfig)
    (clue : Coord2) (n : Nat)
    (h : ∀ nb ∈ obs.revealed.iterNeighbors clue,
      obs.revealed.get nb = none → (variableIdAt obs nb).isSome) :
    (scanClueNeighbors obs cfg clue n).vars =
      (obs.revealed.iterNeighbors clue).filterMap
        (fun c => if (obs.revealed.get c).isSome then none
          else if cfg.flag_semantics = FlagSemantics.Strict ∧ obs.flags.get c then none
          else variableIdAt obs c) := by
  unfold scanClueNeighbors
  generalize hns : obs.revealed.iterNeighbors clue = ns at h
  suffices hgen : ∀ (ns : List Coord2) (st : LocalScan),
      (∀ nb ∈ ns, obs.revealed.get nb = none → (variableIdAt obs nb).isSome) →
      (ns.foldl
        (fun st neighbor =>
          if (obs.revealed.get neighbor).isSome then st
          else
            if cfg.flag_semantics = FlagSemantics.Strict ∧ obs.flags.get neighbor then
              { st with target := st.target - 1 }
            else
              { st with vars := st.vars ++ [(variableIdAt obs neighbor).getD 0] }) st).vars =
        st.vars ++ ns.filterMap
          (fun c => if (obs.revealed.get c).isSome then none
            else if cfg.flag_semantics = FlagSemantics.Strict ∧ obs.flags.get c then none
            else variableIdAt obs c) by
    simpa using hgen ns { target := (n : Int), vars := [] } h
  intro ns
  induction ns with
  | nil => intro st _; simp
  | cons a rest ih =>
    intro st hall
    by_cases hrev : (obs.revealed.get a).isSome
    · simp only [List.foldl_cons, List.filterMap_cons, if_pos hrev]
      exact ih st (fun nb hnb => hall nb (List.mem_cons.mpr (Or.inr hnb)))
    · by_cases hflag : cfg.flag_semantics = FlagSemantics.Strict ∧ obs.flags.get a
      · simp only [List.foldl_cons, List.filterMap_cons, if_neg hrev, if_pos hflag]
        exact ih _ (fun nb hnb => hall nb (List.mem_cons.mpr (Or.inr hnb)))
      · have hsome : (variableIdAt obs a).isSome := by
          apply hall a (List.mem_cons_self a rest)
          exact Option.not_isSome_iff_eq_none.mp hrev
        obtain ⟨v, hv⟩ := Option.isSome_iff_exists.mp hsome
        simp only [List.foldl_cons, List.filterMap_cons, if_neg hrev, if_neg hflag, hv,
          Option.getD_some]
        rw [ih _ (fun nb hnb => hall nb (List.mem_cons.mpr (Or.inr hnb)))]
        simp

/-- C9: for every observation whose grids match its declared size,
`build_constraints` cannot hit the panic in the variable-id lookup: every
hidden neighbor of a revealed cell has an assigned variable id (the lookup is
`some`), and consequently the per-clue neighbor scan pushes exactly the
successfully looked-up ids (the `getD` default is never used). -/
theorem claim_C9 (obs : Observation)
    (h1 : obs.revealed.dim = (obs.size.1, obs.size.2))
    (h2 : obs.flags.dim = (obs.size.1, obs.size.2))
    (clue : Coord2) (n : Nat) (hrev : obs.revealed.get clue = some n)
    (nb : Coord2) (hnb : nb ∈ obs.revealed.iterNeighbors clue)
    (hhid : obs.revealed.get nb = none) :
    (variableIdAt obs nb).isSome ∧
    ∀ cfg : AnalysisConfig,
      (scanClueNeighbors obs cfg clue n).vars =
        (obs.revealed.iterNeighbors clue).filterMap
          (fun c => if (obs.revealed.get c).isSome then none
            else if cfg.flag_semantics = FlagSemantics.Strict ∧ obs.flags.get c then none
            else variableIdAt obs c) := by
  constructor
  · exact variableIdAt_isSome_of_hidden obs (neighbor_mem_scanCoords obs h1 hnb) hhid
  · intro cfg
    apply scanClueNeighbors_vars_filterMap
    intro c hc hch
    exact variableIdAt_isSome_of_hidden obs (neighbor_mem_scanCoords obs h1 hc) hch

/-- Witness for C9 on the concrete 5-by-1 board: clue (1,0) with hidden
neighbor (0,0). -/
theorem claim_C9_witness :
    (variableIdAt obsA (0, 0)).isSome ∧
    ∀ cfg : AnalysisConfig,
      (scanClueNeighbors obsA cfg (1, 0) 1).vars =
        (obsA.revealed.iterNeighbors (1, 0)).filterMap
          (fun c => if (obsA.revealed.get c).isSome then none
            else if cfg.flag_semantics = FlagSemantics.Strict ∧ obsA.flags.get c then none
            else variableIdAt obsA c) :=
  claim_C9 obsA rfl rfl (1, 0) 1 rfl (0, 0) (by decide) rfl

/-! ## Reduction of build_constraints under valid inputs -/

theorem build_constraints_valid (obs : Observation) (cfg : AnalysisConfig)
    (h1 : obs.revealed.dim = (obs.size.1, obs.size.2))
    (h2 : obs.flags.dim = (obs.size.1, obs.size.2))
    (hmc : ∀ mc, obs.mine_count = some mc → mc ≤ mult obs.size.1 obs.size.2) :
    build_constraints obs cfg = build_main obs cfg := by
  unfold build_constraints
  rw [if_neg (by simp [h1, h2])]
  cases hm : obs.mine_count with
  | none => rfl
  | some mc =>
    have : ¬ mult obs.size.1 obs.size.2 < mc := not_lt.mpr (hmc mc hm)
    simp only [this, if_false]

/-! ## Variable enumeration claims (C1) -/

theorem buildVariables_id (obs : Observation) {i : Nat}
    (h : i < (buildVariables obs).length) :
    ((buildVariables obs).get ⟨i, h⟩).id = i := by
  have hq := buildVariables_getElem? obs i
  rw [List.getElem?_eq_getElem h] at hq
  have hlt : i < (hiddenCoords obs).length := by
    rw [← buildVariables_length obs]; exact h
  rw [List.getElem?_eq_getElem hlt] at hq
  simp only [Option.map_some', Option.some.injEq] at hq
  rw [List.get_eq_getElem, hq]

theorem buildVariables_coords (obs : Observation) {i : Nat}
    (h : i < (buildVariables obs).length) :
    ∃ hlt : i < (hiddenCoords obs).length,
      ((buildVariables obs).get ⟨i, h⟩).coords = (hiddenCoords obs).get ⟨i, hlt⟩ := by
  have hlt : i < (hiddenCoords obs).length := by
    rw [← buildVariables_length obs]; exact h
  refine ⟨hlt, ?_⟩
  have hq := buildVariables_getElem? obs i
  rw [List.getElem?_eq_getElem h, List.getElem?_eq_getElem hlt] at hq
  simp only [Option.map_some', Option.some.injEq] at hq
  rw [List.get_eq_getElem, hq, List.get_eq_getElem]

/-- Counterexample to C1 as stated: `obsBadMine` has grids matching its
declared 1-by-1 size and one hidden cell, yet `build_constraints` (taking the
invalid-mine-count early exit: 2 mines claimed on 1 cell) returns a problem
with no variables at all, so it does not produce one variable per hidden
cell. -/
theorem claim_C1_counterexample :
    obsBadMine.revealed.dim = (obsBadMine.size.1, obsBadMine.size.2) ∧
    obsBadMine.flags.dim = (obsBadMine.size.1, obsBadMine.size.2) ∧
    (hiddenCoords obsBadMine).length = 1 ∧
    ¬ ((build_constraints obsBadMine cfgSU).problem.variables'.length =
        (hiddenCoords obsBadMine).length) := by
  refine ⟨rfl, rfl, ?_, ?_⟩ <;> decide

/-- C1 (amended): for every observation passing full validation — grids
matching the declared size and, additionally, any declared mine count not
exceeding the cell count (forced by the counterexample: the invalid-mine-count
early exit otherwise empties the output) — `build_constraints` produces
exactly one variable per hidden cell, scanning x as outer and y as inner loop:
the variable list enumerates the hidden cells in scan order, ids form the
dense range `0..variable_count`, and the id-lookup grid maps every hidden cell
to exactly one id (injectively) and nothing else to any id. -/
theorem claim_C1 (obs : Observation) (cfg : AnalysisConfig)
    (h1 : obs.revealed.dim = (obs.size.1, obs.size.2))
    (h2 : obs.flags.dim = (obs.size.1, obs.size.2))
    (hmc : ∀ mc, obs.mine_count = some mc → mc ≤ mult obs.size.1 obs.size.2) :
    (build_constraints obs cfg).problem.variables' = buildVariables obs ∧
    (buildVariables obs).length = (hiddenCoords obs).length ∧
    ((buildVariables obs).map (fun v => v.coords) =
      (scanCoords obs.size).filter (fun c => (obs.revealed.get c).isNone)) ∧
    (∀ i (h : i < (buildVariables obs).length), ((buildVariables obs).get ⟨i, h⟩).id = i) ∧
    (∀ c ∈ scanCoords obs.size, obs.revealed.get c = none →
      ∃ i, variableIdAt obs c = some i ∧ i < (buildVariables obs).length ∧
        ∀ h : i < (buildVariables obs).length, ((buildVariables obs).get ⟨i, h⟩).coords = c) ∧
    (∀ c c' : Coord2, ∀ i : Nat,
      variableIdAt obs c = some i → variableIdAt obs c' = some i → c = c') ∧
    (∀ (c : Coord2) (i : Nat), variableIdAt obs c = some i →
      i < (buildVariables obs).length ∧ c ∈ scanCoords obs.size ∧
        obs.revealed.get c = none) := by
  refine ⟨?_, buildVariables_length obs, ?_, ?_, ?_, ?_, ?_⟩
  · rw [build_constraints_valid obs cfg h1 h2 hmc]
    rfl
  · exact buildVarsFrom_map_coords obs 0 (hiddenCoords obs)
  · intro i h
    exact buildVariables_id obs h
  · intro c hc hhid
    have hmem : c ∈ hiddenCoords obs := mem_hiddenCoords.mpr ⟨hc, hhid⟩
    obtain ⟨i, hi⟩ := Option.isSome_iff_exists.mp (idxOf?_isSome_of_mem hmem)
    have hlt : i < (hiddenCoords obs).length := idxOf?_lt_length hi
    have hgot := idxOf?_eq_some hi
    refine ⟨i, hi, ?_, ?_⟩
    · rw [buildVariables_length obs]; exact hlt
    · intro h
      obtain ⟨hlt', hco⟩ := buildVariables_coords obs h
      rw [hco]
      rw [List.getElem?_eq_getElem hlt'] at hgot
      simpa using hgot
  · intro c c' i hc hc'
    have g1 := idxOf?_eq_some hc
    have g2 := idxOf?_eq_some hc'
    rw [g1, Option.some.injEq] at g2
    exact g2
  · intro c i hci
    have hlt : i < (hiddenCoords obs).length := idxOf?_lt_length hci
    have hgot := idxOf?_eq_some hci
    have hmem : c ∈ hiddenCoords obs := by
      rw [List.getElem?_eq_getElem hlt, Option.some.injEq] at hgot
      rw [← hgot]
      exact List.getElem_mem hlt
    have hm := mem_hiddenCoords.mp hmem
    exact ⟨by rw [buildVariables_length obs]; exact hlt, hm.1, hm.2⟩

/-- Witness for the amended C1 at the valid 5-by-1 board: numeric parts of the
conclusion, obtained by applying the theorem at `obsA`. -/
theorem claim_C1_witness :
    (build_constraints obsA cfgSI).problem.variables' = buildVariables obsA ∧
    (buildVariables obsA).length = (hiddenCoords obsA).length :=
  ⟨(claim_C1 obsA cfgSI rfl rfl (by intro mc h; cases h)).1,
    (claim_C1 obsA cfgSI rfl rfl (by intro mc h; cases h)).2.1⟩

/-! ## Local-equation pass: closed form and per-clue behavior -/

theorem localStep_none (obs : Observation) (cfg : AnalysisConfig)
    (acc : List ConstraintEquation × List Contradiction) {clue : Coord2}
    (h : obs.revealed.get clue = none) : localStep obs cfg acc clue = acc := by
  simp [localStep, h]

theorem localStep_infeasible (obs : Observation) (cfg : AnalysisConfig)
    (acc : List ConstraintEquation × List Contradiction) {clue : Coord2} {n : Nat}
    (h : obs.revealed.get clue = some n)
    (hinf : (scanClueNeighbors obs cfg clue n).target < 0 ∨
      ((scanClueNeighbors obs cfg clue n).vars.length : Int) <
        (scanClueNeighbors obs cfg clue n).target) :
    localStep obs cfg acc clue =
      (acc.1, acc.2 ++ [Contradiction.LocalClueImpossible clue
        (scanClueNeighbors obs cfg clue n).target
        (scanClueNeighbors obs cfg clue n).vars.length]) := by
  simp [localStep, h, hinf]

theorem localStep_feasible (obs : Observation) (cfg : AnalysisConfig)
    (acc : List ConstraintEquation × List Contradiction) {clue : Coord2} {n : Nat}
    (h : obs.revealed.get clue = some n)
    (hfeas : ¬((scanClueNeighbors obs cfg clue n).target < 0 ∨
      ((scanClueNeighbors obs cfg clue n).vars.length : Int) <
        (scanClueNeighbors obs cfg clue n).target)) :
    localStep obs cfg acc clue =
      (acc.1 ++ [⟨acc.1.length, EquationKind.LocalClue clue,
        (scanClueNeighbors obs cfg clue n).vars,
        (scanClueNeighbors obs cfg clue n).target.toNat⟩], acc.2) := by
  simp [localStep, h, hfeas]

theorem localFold_closed (obs : Observation) (cfg : AnalysisConfig) (l : List Coord2) :
    ∀ acc : List ConstraintEquation × List Contradiction,
      l.foldl (localStep obs cfg) acc =
        (acc.1 ++ localEqsFrom obs cfg acc.1.length l, acc.2 ++ localConsFrom obs cfg l) := by
  induction l with
  | nil => intro acc; simp [localEqsFrom, localConsFrom]
  | cons clue rest ih =>
    intro acc
    simp only [List.foldl_cons]
    cases hrev : obs.revealed.get clue with
    | none =>
      rw [localStep_none obs cfg acc hrev, ih acc]
      simp only [localEqsFrom, localConsFrom, hrev]
    | some n =>
      by_cases hinf : (scanClueNeighbors obs cfg clue n).target < 0 ∨
          ((scanClueNeighbors obs cfg clue n).vars.length : Int) <
            (scanClueNeighbors obs cfg clue n).target
      · rw [localStep_infeasible obs cfg acc hrev hinf, ih _]
        simp only [localEqsFrom, localConsFrom, hrev, if_pos hinf]
        simp [List.append_assoc]
      · rw [localStep_feasible obs cfg acc hrev hinf, ih _]
        simp only [localEqsFrom, localConsFrom, hrev, if_neg hinf]
        simp [List.append_assoc, List.length_append]

theorem buildLocalEquations_eq (obs : Observation) (cfg : AnalysisConfig) :
    buildLocalEquations obs cfg =
      (localEqsFrom obs cfg 0 (scanCoords obs.size),
        localConsFrom obs cfg (scanCoords obs.size)) := by
  unfold buildLocalEquations
  rw [localFold_closed obs cfg _ ([], [])]
  simp

theorem localEqsFrom_id (obs : Observation) (cfg : AnalysisConfig) (l : List Coord2) :
    ∀ (k i : Nat) {e : ConstraintEquation},
      (localEqsFrom obs cfg k l)[i]? = some e → e.id = k + i := by
  induction l with
  | nil => intro k i e h; simp [localEqsFrom] at h
  | cons clue rest ih =>
    intro k i e h
    cases hrev : obs.revealed.get clue with
    | none =>
      simp only [localEqsFrom, hrev] at h
      exact ih k i h
    | some n =>
      simp only [localEqsFrom, hrev] at h
      by_cases hinf : (scanClueNeighbors obs cfg clue n).target < 0 ∨
          ((scanClueNeighbors obs cfg clue n).vars.length : Int) <
            (scanClueNeighbors obs cfg clue n).target
      · rw [if_pos hinf] at h
        exact ih k i h
      · rw [if_neg hinf] at h
        cases i with
        | zero =>
          simp only [List.getElem?_cons_zero, Option.some.injEq] at h
          rw [← h]
          simp
        | succ j =>
          rw [List.getElem?_cons_succ] at h
          have := ih (k + 1) j h
          omega

theorem of_mem_localEqsFrom (obs : Observation) (cfg : AnalysisConfig) {l : List Coord2}
    {e : ConstraintEquation} :
    ∀ {k : Nat}, e ∈ localEqsFrom obs cfg k l →
      ∃ clue ∈ l, ∃ n, obs.revealed.get clue = some n ∧
        ¬((scanClueNeighbors obs cfg clue n).target < 0 ∨
          ((scanClueNeighbors obs cfg clue n).vars.length : Int) <
            (scanClueNeighbors obs cfg clue n).target) ∧
        e.kind = EquationKind.LocalClue clue ∧
        e.variable_ids = (scanClueNeighbors obs cfg clue n).vars ∧
        e.target_mines = (scanClueNeighbors obs cfg clue n).target.toNat := by
  induction l with
  | nil => intro k h; simp [localEqsFrom] at h
  | cons clue rest ih =>
    intro k h
    revert h
    cases hrev : obs.revealed.get clue with
    | none =>
      simp only [localEqsFrom, hrev]
      intro h
      obtain ⟨c, hc, rest'⟩ := ih h
      exact ⟨c, List.mem_cons.mpr (Or.inr hc), rest'⟩
    | some n =>
      simp only [localEqsFrom, hrev]
      by_cases hinf : (scanClueNeighbors obs cfg clue n).target < 0 ∨
          ((scanClueNeighbors obs cfg clue n).vars.length : Int) <
            (scanClueNeighbors obs cfg clue n).target
      · rw [if_pos hinf]
        intro h
        obtain ⟨c, hc, rest'⟩ := ih h
        exact ⟨c, List.mem_cons.mpr (Or.inr hc), rest'⟩
      · rw [if_neg hinf]
        intro h
        rcases List.mem_cons.mp h with he | he
        · subst he
          exact ⟨clue, List.mem_cons_self clue rest, n, hrev, hinf, rfl, rfl, rfl⟩
        · obtain ⟨c, hc, rest'⟩ := ih he
          exact ⟨c, List.mem_cons.mpr (Or.inr hc), rest'⟩

theorem exists_mem_localEqsFrom (obs : Observation) (cfg : AnalysisConfig) {l : List Coord2}
    {clue : Coord2} {n : Nat} (hc : clue ∈ l) (hrev : obs.revealed.get clue = some n)
    (hfeas : ¬((scanClueNeighbors obs cfg clue n).target < 0 ∨
      ((scanClueNeighbors obs cfg clue n).vars.length : Int) <
        (scanClueNeighbors obs cfg clue n).target)) :
    ∀ k : Nat, ∃ e ∈ localEqsFrom obs cfg k l,
      e.kind = EquationKind.LocalClue clue ∧
      e.variable_ids = (scanClueNeighbors obs cfg clue n).vars ∧
      e.target_mines = (scanClueNeighbors obs cfg clue n).target.toNat := by
  induction l with
  | nil => cases hc
  | cons a rest ih =>
    intro k
    rcases List.mem_cons.mp hc with he | he
    · subst he
      simp only [localEqsFrom, hrev, if_neg hfeas]
      exact ⟨_, List.mem_cons_self _ _, rfl, rfl, rfl⟩
    · cases hrev' : obs.revealed.get a with
      | none =>
        simp only [localEqsFrom, hrev']
        exact ih he k
      | some m =>
        simp only [localEqsFrom, hrev']
        by_cases hinf : (scanClueNeighbors obs cfg a m).target < 0 ∨
            ((scanClueNeighbors obs cfg a m).vars.length : Int) <
              (scanClueNeighbors obs cfg a m).target
        · rw [if_pos hinf]
          exact ih he k
        · rw [if_neg hinf]
          obtain ⟨e, hmem, hrest⟩ := ih he (k + 1)
          exact ⟨e, List.mem_cons.mpr (Or.inr hmem), hrest⟩

theorem mem_localConsFrom (obs : Observation) (cfg : AnalysisConfig) {l : List Coord2}
    {x : Contradiction} :
    x ∈ localConsFrom obs cfg l ↔
      ∃ clue ∈ l, ∃ n, obs.revealed.get clue = some n ∧
        ((scanClueNeighbors obs cfg clue n).target < 0 ∨
          ((scanClueNeighbors obs cfg clue n).vars.length : Int) <
            (scanClueNeighbors obs cfg clue n).target) ∧
        x = Contradiction.LocalClueImpossible clue (scanClueNeighbors obs cfg clue n).target
          (scanClueNeighbors obs cfg clue n).vars.length := by
  induction l with
  | nil => simp [localConsFrom]
  | cons clue rest ih =>
    cases hrev : obs.revealed.get clue with
    | none =>
      simp only [localConsFrom, hrev]
      rw [ih]
      constructor
      · rintro ⟨c, hc, rest'⟩
        exact ⟨c, List.mem_cons.mpr (Or.inr hc), rest'⟩
      · rintro ⟨c, hc, n, hn, rest'⟩
        rcases List.mem_cons.mp hc with he | he
        · subst he
          rw [hrev] at hn
          cases hn
        · exact ⟨c, he, n, hn, rest'⟩
    | some n =>
      simp only [localConsFrom, hrev]
      by_cases hinf : (scanClueNeighbors obs cfg clue n).target < 0 ∨
          ((scanClueNeighbors obs cfg clue n).vars.length : Int) <
            (scanClueNeighbors obs cfg clue n).target
      · rw [if_pos hinf]
        constructor
        · intro h
          rcases List.mem_cons.mp h with he | he
          · exact ⟨clue, List.mem_cons_self clue rest, n, hrev, hinf, he⟩
          · obtain ⟨c, hc, rest'⟩ := ih.mp he
            exact ⟨c, List.mem_cons.mpr (Or.inr hc), rest'⟩
        · rintro ⟨c, hc, m, hm, hinf', hx⟩
          rcases List.mem_cons.mp hc with he | he
          · subst he
            rw [hrev] at hm
            cases hm
            exact List.mem_cons.mpr (Or.inl hx)
          · exact List.mem_cons.mpr (Or.inr (ih.mpr ⟨c, he, m, hm, hinf', hx⟩))
      · rw [if_neg hinf, ih]
        constructor
        · rintro ⟨c, hc, rest'⟩
          exact ⟨c, List.mem_cons.mpr (Or.inr hc), rest'⟩
        · rintro ⟨c, hc, m, hm, hinf', hx⟩
          rcases List.mem_cons.mp hc with he | he
          · subst he
            rw [hrev] at hm
            cases hm
            exact absurd hinf' hinf
          · exact ⟨c, he, m, hm, hinf', hx⟩

/-! ## Global-equation pass structure -/

theorem globalFold_snd (cfg : AnalysisConfig) (vars : List ConstraintVariable) :
    ∀ init : Int × List Nat,
      (vars.foldl
        (fun (st : Int × List Nat) var =>
          if cfg.flag_semantics = FlagSemantics.Strict ∧ var.flagged then
            (st.1 - 1, st.2)
          else
            (st.1, st.2 ++ [var.id])) init).2 =
      init.2 ++ vars.filterMap
        (fun v => if cfg.flag_semantics = FlagSemantics.Strict ∧ v.flagged then none
          else some v.id) := by
  induction vars with
  | nil => intro init; simp
  | cons v rest ih =>
    intro init
    by_cases hv : cfg.flag_semantics = FlagSemantics.Strict ∧ v.flagged
    · simp only [List.foldl_cons, List.filterMap_cons, if_pos hv, ih]
    · simp only [List.foldl_cons, List.filterMap_cons, if_neg hv, ih]
      simp

theorem globalScan_snd (cfg : AnalysisConfig) (total : Nat)
    (vars : List ConstraintVariable) :
    (globalScan cfg total vars).2 =
      vars.filterMap
        (fun v => if cfg.flag_semantics = FlagSemantics.Strict ∧ v.flagged then none
          else some v.id) := by
  have h := globalFold_snd cfg vars ((total : Int), [])
  simpa [globalScan] using h

theorem buildGlobalEquation_spec (obs : Observation) (cfg : AnalysisConfig)
    (vars : List ConstraintVariable) (eqs : List ConstraintEquation) :
    (((buildGlobalEquation obs cfg vars eqs).1 = eqs ∧
        (buildGlobalEquation obs cfg vars eqs).2.2 = 0) ∨
      (∃ tgt : Int,
        (buildGlobalEquation obs cfg vars eqs).1 =
          eqs ++ [⟨eqs.length, EquationKind.GlobalMineCount,
            vars.filterMap
              (fun v => if cfg.flag_semantics = FlagSemantics.Strict ∧ v.flagged then none
                else some v.id), tgt.toNat⟩] ∧
        (buildGlobalEquation obs cfg vars eqs).2.2 = 1)) ∧
    (∀ x ∈ (buildGlobalEquation obs cfg vars eqs).2.1,
      ∃ t a, x = Contradiction.GlobalMineCountImpossible t a) := by
  unfold buildGlobalEquation
  by_cases hu : cfg.mine_count_usage = MineCountUsage.UseIfKnown
  · rw [if_pos hu]
    cases hm : obs.mine_count with
    | none => simp
    | some total =>
      by_cases hbad : (globalScan cfg total vars).1 < 0 ∨
          ((globalScan cfg total vars).2.length : Int) < (globalScan cfg total vars).1
      · simp only [if_pos hbad]
        constructor
        · exact Or.inl ⟨by trivial, by trivial⟩
        · intro x hx
          rcases List.mem_singleton.mp hx with rfl
          exact ⟨_, _, rfl⟩
      · simp only [if_neg hbad]
        constructor
        · refine Or.inr ⟨(globalScan cfg total vars).1, ?_, by trivial⟩
          rw [globalScan_snd cfg total vars]
        · intro x hx
          simp at hx
  · rw [if_neg hu]
    simp

theorem build_main_variables (obs : Observation) (cfg : AnalysisConfig) :
    (build_main obs cfg).problem.variables' = buildVariables obs := rfl

theorem build_main_equations (obs : Observation) (cfg : AnalysisConfig) :
    (build_main obs cfg).problem.equations =
      (buildGlobalEquation obs cfg (buildVariables obs)
        (localEqsFrom obs cfg 0 (scanCoords obs.size))).1 := by
  simp only [build_main, buildLocalEquations_eq]

theorem build_main_contradictions (obs : Observation) (cfg : AnalysisConfig) :
    (build_main obs cfg).contradictions =
      localConsFrom obs cfg (scanCoords obs.size) ++
        (buildGlobalEquation obs cfg (buildVariables obs)
          (localEqsFrom obs cfg 0 (scanCoords obs.size))).2.1 := by
  simp only [build_main, buildLocalEquations_eq]

theorem build_main_components (obs : Observation) (cfg : AnalysisConfig) :
    (build_main obs cfg).problem.components =
      (build_components (buildVariables obs).length
        (build_main obs cfg).problem.equations).1 := by
  simp only [build_main, buildLocalEquations_eq]

theorem build_main_unconstrained (obs : Observation) (cfg : AnalysisConfig) :
    (build_main obs cfg).problem.unconstrained_variable_ids =
      (build_components (buildVariables obs).length
        (build_main obs cfg).problem.equations).2 := by
  simp only [build_main, buildLocalEquations_eq]

/-! ## Claim C2: per-clue equation/contradiction dichotomy -/

theorem build_main_eq_id (obs : Observation) (cfg : AnalysisConfig) :
    ∀ (i : Nat) {e : ConstraintEquation},
      ((build_main obs cfg).problem.equations)[i]? = some e → e.id = i := by
  intro i e h
  rw [build_main_equations] at h
  rcases (buildGlobalEquation_spec obs cfg (buildVariables obs)
      (localEqsFrom obs cfg 0 (scanCoords obs.size))).1 with ⟨heq, _⟩ | ⟨tgt, heq, _⟩
  · rw [heq] at h
    have := localEqsFrom_id obs cfg _ 0 i h
    omega
  · rw [heq] at h
    by_cases hi : i < (localEqsFrom obs cfg 0 (scanCoords obs.size)).length
    · rw [List.getElem?_append, if_pos hi] at h
      have := localEqsFrom_id obs cfg _ 0 i h
      omega
    · rw [List.getElem?_append, if_neg hi] at h
      rcases Nat.lt_or_ge (i - (localEqsFrom obs cfg 0 (scanCoords obs.size)).length) 1 with hd | hd
      · have hz : i - (localEqsFrom obs cfg 0 (scanCoords obs.size)).length = 0 := by omega
        rw [hz] at h
        simp only [List.getElem?_cons_zero, Option.some.injEq] at h
        rw [← h]
        simp only []
        omega
      · rw [List.getElem?_eq_none (by simpa using hd)] at h
        cases h

theorem mem_build_main_equations (obs : Observation) (cfg : AnalysisConfig)
    {e : ConstraintEquation} (h : e ∈ (build_main obs cfg).problem.equations) :
    e ∈ localEqsFrom obs cfg 0 (scanCoords obs.size) ∨
      (e.kind = EquationKind.GlobalMineCount ∧
        e.id = (localEqsFrom obs cfg 0 (scanCoords obs.size)).length ∧
        e.variable_ids = (buildVariables obs).filterMap
          (fun v => if cfg.flag_semantics = FlagSemantics.Strict ∧ v.flagged then none
            else some v.id)) := by
  rw [build_main_equations] at h
  rcases (buildGlobalEquation_spec obs cfg (buildVariables obs)
      (localEqsFrom obs cfg 0 (scanCoords obs.size))).1 with ⟨heq, _⟩ | ⟨tgt, heq, _⟩
  · rw [heq] at h
    exact Or.inl h
  · rw [heq] at h
    rcases List.mem_append.mp h with hm | hm
    · exact Or.inl hm
    · rcases List.mem_singleton.mp hm with rfl
      exact Or.inr ⟨rfl, rfl, rfl⟩

theorem localEqsFrom_mem_of_feasible (obs : Observation) (cfg : AnalysisConfig)
    {clue : Coord2} {n : Nat} (hc : clue ∈ scanCoords obs.size)
    (hrev : obs.revealed.get clue = some n)
    (hfeas : ¬((scanClueNeighbors obs cfg clue n).target < 0 ∨
      ((scanClueNeighbors obs cfg clue n).vars.length : Int) <
        (scanClueNeighbors obs cfg clue n).target)) :
    ∃ e ∈ (build_main obs cfg).problem.equations,
      e.kind = EquationKind.LocalClue clue ∧
      e.variable_ids = (scanClueNeighbors obs cfg clue n).vars ∧
      e.target_mines = (scanClueNeighbors obs cfg clue n).target.toNat := by
  obtain ⟨e, hmem, hrest⟩ := exists_mem_localEqsFrom obs cfg hc hrev hfeas 0
  refine ⟨e, ?_, hrest⟩
  rw [build_main_equations]
  rcases (buildGlobalEquation_spec obs cfg (buildVariables obs)
      (localEqsFrom obs cfg 0 (scanCoords obs.size))).1 with ⟨heq, _⟩ | ⟨tgt, heq, _⟩
  · rw [heq]; exact hmem
  · rw [heq]; exact List.mem_append.mpr (Or.inl hmem)

/-- C2: for every revealed cell of a validated observation, after the
per-neighbor scan under the configured flag semantics, the builder emits a
`LocalClueImpossible` contradiction and adds no equation for that cell exactly
when the adjusted target is negative or exceeds the number of included
variables; otherwise it appends a `LocalClue` equation carrying that scan's
variables and target, with equation ids always the dense sequence of
positions (each equation's id is its index).  In both cases construction
continues: every other revealed cell is still processed (captured by the
quantification over all clues). -/
theorem claim_C2 (obs : Observation) (cfg : AnalysisConfig)
    (h1 : obs.revealed.dim = (obs.size.1, obs.size.2))
    (h2 : obs.flags.dim = (obs.size.1, obs.size.2))
    (hmc : ∀ mc, obs.mine_count = some mc → mc ≤ mult obs.size.1 obs.size.2)
    (clue : Coord2) (hc : clue ∈ scanCoords obs.size) (n : Nat)
    (hrev : obs.revealed.get clue = some n) :
    (∀ (i : Nat) (e : ConstraintEquation),
      ((build_constraints obs cfg).problem.equations)[i]? = some e → e.id = i) ∧
    (((scanClueNeighbors obs cfg clue n).target < 0 ∨
        ((scanClueNeighbors obs cfg clue n).vars.length : Int) <
          (scanClueNeighbors obs cfg clue n).target) →
      Contradiction.LocalClueImpossible clue (scanClueNeighbors obs cfg clue n).target
          (scanClueNeighbors obs cfg clue n).vars.length ∈
        (build_constraints obs cfg).contradictions ∧
      ∀ e ∈ (build_constraints obs cfg).problem.equations,
        e.kind ≠ EquationKind.LocalClue clue) ∧
    (¬((scanClueNeighbors obs cfg clue n).target < 0 ∨
        ((scanClueNeighbors obs cfg clue n).vars.length : Int) <
          (scanClueNeighbors obs cfg clue n).target) →
      (∃ e ∈ (build_constraints obs cfg).problem.equations,
        e.kind = EquationKind.LocalClue clue ∧
        e.variable_ids = (scanClueNeighbors obs cfg clue n).vars ∧
        e.target_mines = (scanClueNeighbors obs cfg clue n).target.toNat) ∧
      ∀ t a, Contradiction.LocalClueImpossible clue t a ∉
        (build_constraints obs cfg).contradictions) := by
  rw [build_constraints_valid obs cfg h1 h2 hmc]
  refine ⟨fun i e h => build_main_eq_id obs cfg i h, ?_, ?_⟩
  · intro hinf
    constructor
    · rw [build_main_contradictions]
      refine List.mem_append.mpr (Or.inl ?_)
      exact (mem_localConsFrom obs cfg).mpr ⟨clue, hc, n, hrev, hinf, rfl⟩
    · intro e he hkind
      rcases mem_build_main_equations obs cfg he with hm | ⟨hk, _⟩
      · obtain ⟨c', _, n', hrev', hfeas', hkind', _, _⟩ := of_mem_localEqsFrom obs cfg hm
        rw [hkind] at hkind'
        have hcc : clue = c' := by
          injection hkind'
        subst hcc
        rw [hrev] at hrev'
        injection hrev' with hnn
        subst hnn
        exact hfeas' hinf
      · rw [hkind] at hk
        cases hk
  · intro hfeas
    constructor
    · exact localEqsFrom_mem_of_feasible obs cfg hc hrev hfeas
    · intro t a hmem
      rw [build_main_contradictions] at hmem
      rcases List.mem_append.mp hmem with hm | hm
      · obtain ⟨c', _, n', hrev', hinf', hx⟩ := (mem_localConsFrom obs cfg).mp hm
        have hcc : clue = c' := by
          injection hx
        subst hcc
        rw [hrev] at hrev'
        injection hrev' with hnn
        subst hnn
        exact hfeas hinf'
      · obtain ⟨t', a', hx⟩ := (buildGlobalEquation_spec obs cfg (buildVariables obs)
          (localEqsFrom obs cfg 0 (scanCoords obs.size))).2 _ hm
        cases hx

/-- Witness for C2 on the 5-by-1 board at the feasible clue (1,0): its scan is
feasible, a matching local equation exists, and no `LocalClueImpossible` for it
is reported. -/
theorem claim_C2_witness :
    ¬((scanClueNeighbors obsA cfgSI (1, 0) 1).target < 0 ∨
      ((scanClueNeighbors obsA cfgSI (1, 0) 1).vars.length : Int) <
        (scanClueNeighbors obsA cfgSI (1, 0) 1).target) ∧
    ((∃ e ∈ (build_constraints obsA cfgSI).problem.equations,
      e.kind = EquationKind.LocalClue (1, 0) ∧
      e.variable_ids = (scanClueNeighbors obsA cfgSI (1, 0) 1).vars ∧
      e.target_mines = (scanClueNeighbors obsA cfgSI (1, 0) 1).target.toNat) ∧
    ∀ t a, Contradiction.LocalClueImpossible (1, 0) t a ∉
      (build_constraints obsA cfgSI).contradictions) :=
  ⟨by decide,
    (claim_C2 obsA cfgSI rfl rfl (fun mc h => by cases h) (1, 0) (by decide) 1 rfl).2.2
      (by decide)⟩

/-! ## Claim C3: fatal validation paths -/

/-- C3: if either grid's dimensions do not match the declared size,
`build_constraints` returns the entirely empty output (no variables, no
equations, no components, zero stats) whose only contradiction is
`InvalidObservationShape`; if the grids match but a declared mine count
exceeds the total cell count, it returns the empty output whose only
contradiction is `InvalidMineCount` with that count and the cell count. -/
theorem claim_C3 (obs : Observation) (cfg : AnalysisConfig) :
    ((obs.revealed.dim ≠ (obs.size.1, obs.size.2) ∨
        obs.flags.dim ≠ (obs.size.1, obs.size.2)) →
      build_constraints obs cfg =
        { problem :=
            { variables' := [], equations := [], components := []
              unconstrained_variable_ids := [] }
          contradictions := [Contradiction.InvalidObservationShape]
          stats :=
            { variable_count := 0, local_equation_count := 0, global_equation_count := 0
              component_count := 0, max_component_variables := 0
              contradiction_count := 1 } }) ∧
    (obs.revealed.dim = (obs.size.1, obs.size.2) →
      obs.flags.dim = (obs.size.1, obs.size.2) →
      ∀ mc, obs.mine_count = some mc → mult obs.size.1 obs.size.2 < mc →
        build_constraints obs cfg =
          { problem :=
              { variables' := [], equations := [], components := []
                unconstrained_variable_ids := [] }
            contradictions :=
              [Contradiction.InvalidMineCount mc (mult obs.size.1 obs.size.2)]
            stats :=
              { variable_count := 0, local_equation_count := 0, global_equation_count := 0
                component_count := 0, max_component_variables := 0
                contradiction_count := 1 } }) := by
  constructor
  · intro hbad
    unfold build_constraints
    rw [if_pos hbad]
    rfl
  · intro h1 h2 mc hmc hlt
    unfold build_constraints
    rw [if_neg (by simp [h1, h2])]
    simp only [hmc, if_pos hlt]
    rfl

/-- Witness for C3 at the two concrete bad observations: a shape mismatch and
an oversized mine count each produce the corresponding empty output. -/
theorem claim_C3_witness :
    build_constraints obsBadShape cfgSI =
      { problem :=
          { variables' := [], equations := [], components := []
            unconstrained_variable_ids := [] }
        contradictions := [Contradiction.InvalidObservationShape]
        stats :=
          { variable_count := 0, local_equation_count := 0, global_equation_count := 0
            component_count := 0, max_component_variables := 0
            contradiction_count := 1 } } ∧
    build_constraints obsBadMine cfgSI =
      { problem :=
          { variables' := [], equations := [], components := []
            unconstrained_variable_ids := [] }
        contradictions := [Contradiction.InvalidMineCount 2 (mult 1 1)]
        stats :=
          { variable_count := 0, local_equation_count := 0, global_equation_count := 0
            component_count := 0, max_component_variables := 0
            contradiction_count := 1 } } :=
  ⟨(claim_C3 obsBadShape cfgSI).1 (by decide),
    (claim_C3 obsBadMine cfgSI).2 rfl rfl 2 rfl (by decide)⟩

/-! ## Claim C6: Strict and Soft agree when no cell is flagged -/

theorem foldl_congr_mem {α β : Type} {f g : β → α → β} {l : List α}
    (h : ∀ b x, x ∈ l → f b x = g b x) : ∀ b, l.foldl f b = l.foldl g b := by
  induction l with
  | nil => intro b; rfl
  | cons a rest ih =>
    intro b
    simp only [List.foldl_cons]
    rw [h b a (List.mem_cons_self a rest)]
    exact ih (fun b x hx => h b x (List.mem_cons.mpr (Or.inr hx))) _

theorem of_mem_buildVariables {obs : Observation} {v : ConstraintVariable}
    (h : v ∈ buildVariables obs) :
    v.coords ∈ hiddenCoords obs ∧ v.flagged = obs.flags.get v.coords := by
  obtain ⟨i, hi⟩ := List.mem_iff_getElem?.mp h
  rw [buildVariables_getElem?] at hi
  obtain ⟨c, hc, hv⟩ := Option.map_eq_some'.mp hi
  have hcm : c ∈ hiddenCoords obs := by
    rcases List.getElem?_eq_some.mp hc with ⟨hlt, hget⟩
    rw [← hget]
    exact List.getElem_mem hlt
  rw [← hv]
  exact ⟨hcm, rfl⟩

theorem scanClueNeighbors_noflags (obs : Observation) (mcu : MineCountUsage)
    (h1 : obs.revealed.dim = (obs.size.1, obs.size.2))
    (hf : ∀ c ∈ scanCoords obs.size, obs.flags.get c = false) (clue : Coord2) (n : Nat) :
    scanClueNeighbors obs ⟨FlagSemantics.Strict, mcu⟩ clue n =
      scanClueNeighbors obs ⟨FlagSemantics.Soft, mcu⟩ clue n := by
  unfold scanClueNeighbors
  apply foldl_congr_mem
  intro st nb hnb
  have hfl : obs.flags.get nb = false := hf nb (neighbor_mem_scanCoords obs h1 hnb)
  simp [hfl]

theorem localStep_noflags (obs : Observation) (mcu : MineCountUsage)
    (h1 : obs.revealed.dim = (obs.size.1, obs.size.2))
    (hf : ∀ c ∈ scanCoords obs.size, obs.flags.get c = false)
    (acc : List ConstraintEquation × List Contradiction) (clue : Coord2) :
    localStep obs ⟨FlagSemantics.Strict, mcu⟩ acc clue =
      localStep obs ⟨FlagSemantics.Soft, mcu⟩ acc clue := by
  cases hrev : obs.revealed.get clue with
  | none => rw [localStep_none obs _ acc hrev, localStep_none obs _ acc hrev]
  | some n =>
    have hs := scanClueNeighbors_noflags obs mcu h1 hf clue n
    simp only [localStep, hrev, hs]

theorem buildLocalEquations_noflags (obs : Observation) (mcu : MineCountUsage)
    (h1 : obs.revealed.dim = (obs.size.1, obs.size.2))
    (hf : ∀ c ∈ scanCoords obs.size, obs.flags.get c = false) :
    buildLocalEquations obs ⟨FlagSemantics.Strict, mcu⟩ =
      buildLocalEquations obs ⟨FlagSemantics.Soft, mcu⟩ := by
  unfold buildLocalEquations
  exact foldl_congr_mem (fun acc clue _ => localStep_noflags obs mcu h1 hf acc clue) _

theorem globalScan_noflags (obs : Observation) (mcu : MineCountUsage)
    (hf : ∀ c ∈ scanCoords obs.size, obs.flags.get c = false) (total : Nat) :
    globalScan ⟨FlagSemantics.Strict, mcu⟩ total (buildVariables obs) =
      globalScan ⟨FlagSemantics.Soft, mcu⟩ total (buildVariables obs) := by
  have hvars : ∀ v ∈ buildVariables obs, v.flagged = false := by
    intro v hv
    obtain ⟨hcm, hfl⟩ := of_mem_buildVariables hv
    rw [hfl]
    exact hf v.coords (mem_hiddenCoords.mp hcm).1
  unfold globalScan
  apply foldl_congr_mem
  intro st v hv
  simp [hvars v hv]

theorem buildGlobalEquation_noflags (obs : Observation) (mcu : MineCountUsage)
    (hf : ∀ c ∈ scanCoords obs.size, obs.flags.get c = false)
    (eqs : List ConstraintEquation) :
    buildGlobalEquation obs ⟨FlagSemantics.Strict, mcu⟩ (buildVariables obs) eqs =
      buildGlobalEquation obs ⟨FlagSemantics.Soft, mcu⟩ (buildVariables obs) eqs := by
  have hscan := globalScan_noflags obs mcu hf
  simp only [buildGlobalEquation, hscan]

theorem build_main_noflags (obs : Observation) (mcu : MineCountUsage)
    (h1 : obs.revealed.dim = (obs.size.1, obs.size.2))
    (hf : ∀ c ∈ scanCoords obs.size, obs.flags.get c = false) :
    build_main obs ⟨FlagSemantics.Strict, mcu⟩ = build_main obs ⟨FlagSemantics.Soft, mcu⟩ := by
  simp only [build_main, buildLocalEquations_noflags obs mcu h1 hf,
    buildGlobalEquation_noflags obs mcu hf]

/-- C6: on an observation whose flags grid is all false (on the board), the
whole build output under Strict flag semantics equals the output under Soft
semantics, holding the mine-count policy fixed; in particular Soft produces
exactly the same contradiction list as Strict when no flags are set. -/
theorem claim_C6 (obs : Observation) (mcu : MineCountUsage)
    (hf : ∀ c ∈ scanCoords obs.size, obs.flags.get c = false) :
    build_constraints obs ⟨FlagSemantics.Strict, mcu⟩ =
      build_constraints obs ⟨FlagSemantics.Soft, mcu⟩ := by
  unfold build_constraints
  by_cases hbad : obs.revealed.dim ≠ (obs.size.1, obs.size.2) ∨
      obs.flags.dim ≠ (obs.size.1, obs.size.2)
  · rw [if_pos hbad, if_pos hbad]
  · rw [if_neg hbad, if_neg hbad]
    push_neg at hbad
    cases hm : obs.mine_count with
    | none =>
      simp only []
      exact build_main_noflags obs mcu hbad.1 hf
    | some mc =>
      simp only []
      by_cases hlt : mult obs.size.1 obs.size.2 < mc
      · rw [if_pos hlt, if_pos hlt]
      · rw [if_neg hlt, if_neg hlt]
        exact build_main_noflags obs mcu hbad.1 hf

/-- Witness for C6 on the unflagged 5-by-1 board. -/
theorem claim_C6_witness :
    build_constraints obsA ⟨FlagSemantics.Strict, MineCountUsage.Ignore⟩ =
      build_constraints obsA ⟨FlagSemantics.Soft, MineCountUsage.Ignore⟩ :=
  claim_C6 obsA MineCountUsage.Ignore (by decide)

/-! ## Claim C7: the concrete 5-by-1 scenario -/

/-- Counterexample to C7 as stated: on the 5-by-1 board with clue 1 at
position 1 and clue 0 at position 4 (Soft semantics, mine count ignored),
`unconstrained_variable_ids` is empty, so variable id 3 is not listed in it —
indeed only three variables exist (ids 0,1,2). -/
theorem claim_C7_counterexample :
    (build_constraints obsA cfgSI).problem.unconstrained_variable_ids = [] ∧
    ¬ (3 ∈ (build_constraints obsA cfgSI).problem.unconstrained_variable_ids) := by
  constructor <;> decide

/-- C7 (amended): on the 5-by-1 board with clue 1 at position 1 and clue 0 at
position 4, all other cells hidden and unflagged, under Soft semantics with
mine count ignored, `build_constraints` returns exactly 2 components with
variable-id sets `[0,1]` and `[2]`; there are only three variables — ids 0,1,2
at positions 0,2,3 — the cell at position 3 being variable id 2, which is
constrained by the zero clue at position 4, so `unconstrained_variable_ids` is
empty (no variable id 3 exists). -/
theorem claim_C7 :
    ((build_constraints obsA cfgSI).problem.components.map
      (fun comp => comp.variable_ids)) = [[0, 1], [2]] ∧
    (build_constraints obsA cfgSI).problem.components.length = 2 ∧
    (build_constraints obsA cfgSI).problem.variables'.length = 3 ∧
    ((build_constraints obsA cfgSI).problem.variables'.map (fun v => v.coords)) =
      [(0, 0), (2, 0), (3, 0)] ∧
    (build_constraints obsA cfgSI).problem.unconstrained_variable_ids = [] := by
  refine ⟨?_, ?_, ?_, ?_, ?_⟩ <;> decide

/-! ## Componentization support: touched marking -/

theorem markList_length (t : List Bool) (vs : List Nat) :
    (markList t vs).length = t.length := by
  induction vs generalizing t with
  | nil => rfl
  | cons v rest ih =>
    simp only [markList, List.foldl_cons] at *
    rw [ih]
    simp

theorem markList_getD (vs : List Nat) :
    ∀ (t : List Bool) (v : Nat),
      ((markList t vs).getD v false = true ↔
        (v ∈ vs ∧ v < t.length) ∨ t.getD v false = true) := by
  induction vs with
  | nil => intro t v; simp [markList]
  | cons a rest ih =>
    intro t v
    have hstep : markList t (a :: rest) = markList (t.set a true) rest := rfl
    rw [hstep, ih, List.length_set]
    by_cases hva : v = a
    · subst hva
      by_cases hlt : v < t.length
      · have hset : (t.set v true).getD v false = true := by
          simp only [List.getD]
          rw [List.get?_set_eq_of_lt true hlt]
          rfl
        rw [hset]
        simp [hlt, List.mem_cons]
      · have hset : t.set v true = t := List.set_eq_of_length_le (Nat.le_of_not_lt hlt)
        rw [hset]
        constructor
        · rintro (⟨hm, hlv⟩ | h)
          · exact absurd hlv hlt
          · exact Or.inr h
        · rintro (⟨hm, hlv⟩ | h)
          · exact absurd hlv hlt
          · exact Or.inr h
    · have hset : (t.set a true).getD v false = t.getD v false := by
        simp only [List.getD]
        rw [List.get?_set_ne true t (fun h => hva h.symm)]
      rw [hset]
      constructor
      · rintro (⟨hm, hlv⟩ | h)
        · exact Or.inl ⟨List.mem_cons.mpr (Or.inr hm), hlv⟩
        · exact Or.inr h
      · rintro (⟨hm, hlv⟩ | h)
        · rcases List.mem_cons.mp hm with he | he
          · exact absurd he hva
          · exact Or.inl ⟨he, hlv⟩
        · exact Or.inr h

theorem pairFold_snd (rest : List Nat) :
    ∀ (d : Dsu) (t : List Bool) (first : Nat),
      (rest.foldl (fun (st2 : Dsu × List Bool) var =>
        (st2.1.union first var, st2.2.set var true)) (d, t)).2 = markList t rest := by
  induction rest with
  | nil => intro d t first; rfl
  | cons a r ih =>
    intro d t first
    simp only [List.foldl_cons, markList, ih]

theorem foldl_snd_eq {α : Type} (step : (Dsu × List Bool) → α → (Dsu × List Bool))
    (stepT : List Bool → α → List Bool)
    (hcomm : ∀ st a, (step st a).2 = stepT st.2 a) :
    ∀ (l : List α) (st : Dsu × List Bool), (l.foldl step st).2 = l.foldl stepT st.2 := by
  intro l
  induction l with
  | nil => intro st; rfl
  | cons a rest ih =>
    intro st
    simp only [List.foldl_cons]
    rw [ih (step st a), hcomm st a]

theorem markTouched_snd (variable_count : Nat) (equations : List ConstraintEquation) :
    (markTouched variable_count equations).2 =
      equations.foldl
        (fun t equation =>
          if equation.kind.isLocalClue then markList t equation.variable_ids else t)
        (List.replicate variable_count false) := by
  unfold markTouched
  apply foldl_snd_eq
  intro st e
  by_cases hloc : e.kind.isLocalClue
  · rw [if_pos hloc, if_pos hloc]
    cases hvs : e.variable_ids with
    | nil => rfl
    | cons first vrest =>
      exact pairFold_snd vrest st.1 (st.2.set first true) first
  · rw [if_neg hloc, if_neg hloc]

theorem touchedFold_getD (equations : List ConstraintEquation) :
    ∀ (t : List Bool) (v : Nat),
      ((equations.foldl
        (fun t equation =>
          if equation.kind.isLocalClue then markList t equation.variable_ids else t) t).getD
          v false = true ↔
        (v < t.length ∧ ∃ e ∈ equations, e.kind.isLocalClue ∧ v ∈ e.variable_ids) ∨
          t.getD v false = true) := by
  induction equations with
  | nil => intro t v; simp
  | cons e rest ih =>
    intro t v
    simp only [List.foldl_cons]
    by_cases hloc : e.kind.isLocalClue
    · rw [if_pos hloc, ih, markList_getD, markList_length]
      constructor
      · rintro (⟨hl, e', he', hk, hv⟩ | (⟨hm, hl⟩ | h))
        · exact Or.inl ⟨hl, e', List.mem_cons.mpr (Or.inr he'), hk, hv⟩
        · exact Or.inl ⟨hl, e, List.mem_cons_self _ _, hloc, hm⟩
        · exact Or.inr h
      · rintro (⟨hl, e', he', hk, hv⟩ | h)
        · rcases List.mem_cons.mp he' with he | he
          · subst he
            exact Or.inr (Or.inl ⟨hv, hl⟩)
          · exact Or.inl ⟨hl, e', he, hk, hv⟩
        · exact Or.inr (Or.inr h)
    · rw [if_neg hloc, ih]
      constructor
      · rintro (⟨hl, e', he', hk, hv⟩ | h)
        · exact Or.inl ⟨hl, e', List.mem_cons.mpr (Or.inr he'), hk, hv⟩
        · exact Or.inr h
      · rintro (⟨hl, e', he', hk, hv⟩ | h)
        · rcases List.mem_cons.mp he' with he | he
          · subst he
            exact absurd hk hloc
          · exact Or.inl ⟨hl, e', he, hk, hv⟩
        · exact Or.inr h

theorem touchedFold_length (equations : List ConstraintEquation) :
    ∀ t : List Bool,
      (equations.foldl
        (fun t equation =>
          if equation.kind.isLocalClue then markList t equation.variable_ids else t) t).length =
        t.length := by
  induction equations with
  | nil => intro t; rfl
  | cons e rest ih =>
    intro t
    simp only [List.foldl_cons]
    by_cases hloc : e.kind.isLocalClue
    · rw [if_pos hloc, ih, markList_length]
    · rw [if_neg hloc, ih]

theorem touched_length (variable_count : Nat) (equations : List ConstraintEquation) :
    (markTouched variable_count equations).2.length = variable_count := by
  rw [markTouched_snd, touchedFold_length]
  simp

theorem getD_replicate_false (n v : Nat) :
    (List.replicate n false).getD v false = false := by
  rcases Nat.lt_or_ge v n with h | h
  · simp [List.getD, List.get?_eq_getElem?, List.getElem?_replicate, h]
  · simp [List.getD, List.get?_eq_getElem?, List.getElem?_replicate, Nat.not_lt.mpr h]

theorem touched_getD (variable_count : Nat) (equations : List ConstraintEquation) (v : Nat) :
    ((markTouched variable_count equations).2.getD v false = true ↔
      v < variable_count ∧ ∃ e ∈ equations, e.kind.isLocalClue ∧ v ∈ e.variable_ids) := by
  rw [markTouched_snd, touchedFold_getD, getD_replicate_false, List.length_replicate]
  simp

/-! ## modifyAt and dedupConsec support -/

theorem modifyAt_length {α : Type} (l : List α) (i : Nat) (f : α → α) :
    (modifyAt l i f).length = l.length := by
  induction l generalizing i with
  | nil => rfl
  | cons a rest ih =>
    cases i with
    | zero => rfl
    | succ j => simp [modifyAt, ih]

theorem mem_modifyAt {α : Type} {l : List α} {i : Nat} {f : α → α} {x : α}
    (h : x ∈ modifyAt l i f) : x ∈ l ∨ ∃ b ∈ l, x = f b := by
  induction l generalizing i with
  | nil => cases h
  | cons a rest ih =>
    cases i with
    | zero =>
      rcases List.mem_cons.mp h with he | he
      · exact Or.inr ⟨a, List.mem_cons_self a rest, he⟩
      · exact Or.inl (List.mem_cons.mpr (Or.inr he))
    | succ j =>
      rcases List.mem_cons.mp h with he | he
      · exact Or.inl (List.mem_cons.mpr (Or.inl he))
      · rcases ih he with hm | ⟨b, hb, hx⟩
        · exact Or.inl (List.mem_cons.mpr (Or.inr hm))
        · exact Or.inr ⟨b, List.mem_cons.mpr (Or.inr hb), hx⟩

theorem map_modifyAt_of_proj {α β : Type} {f : α → α} {proj : α → β}
    (hp : ∀ a, proj (f a) = proj a) (l : List α) (i : Nat) :
    (modifyAt l i f).map proj = l.map proj := by
  induction l generalizing i with
  | nil => rfl
  | cons a rest ih =>
    cases i with
    | zero => simp [modifyAt, hp a]
    | succ j => simp [modifyAt, ih]

theorem map_modifyAt_comm {α β : Type} {f : α → α} {g : α → β} {h : β → β}
    (hc : ∀ a, g (f a) = h (g a)) (l : List α) (i : Nat) :
    (modifyAt l i f).map g = modifyAt (l.map g) i h := by
  induction l generalizing i with
  | nil => rfl
  | cons a rest ih =>
    cases i with
    | zero => simp [modifyAt, hc a]
    | succ j => simp [modifyAt, ih]

theorem flatten_modifyAt_append_perm (L : List (List Nat)) (v : Nat) :
    ∀ i : Nat, i < L.length →
      List.Perm (modifyAt L i (fun s => s ++ [v])).flatten (L.flatten ++ [v]) := by
  induction L with
  | nil => intro i h; cases h
  | cons s rest ih =>
    intro i h
    cases i with
    | zero =>
      simp only [modifyAt, List.flatten_cons]
      have h1 : (s ++ [v]) ++ rest.flatten = s ++ ([v] ++ rest.flatten) := by
        rw [List.append_assoc]
      rw [h1]
      have h2 : List.Perm ([v] ++ rest.flatten) (rest.flatten ++ [v]) :=
        List.perm_append_comm
      have h3 := List.Perm.append_left s h2
      have h4 : s ++ (rest.flatten ++ [v]) = (s ++ rest.flatten) ++ [v] := by
        rw [List.append_assoc]
      rw [h4] at h3
      exact h3
    | succ j =>
      simp only [modifyAt, List.flatten_cons]
      have hj : j < rest.length := by simpa using Nat.lt_of_succ_lt_succ h
      have h3 := List.Perm.append_left s (ih j hj)
      have h4 : s ++ (rest.flatten ++ [v]) = (s ++ rest.flatten) ++ [v] := by
        rw [List.append_assoc]
      rw [h4] at h3
      exact h3

theorem modifyAt_append_last {α : Type} (l : List α) (a : α) (f : α → α) :
    modifyAt (l ++ [a]) l.length f = l ++ [f a] := by
  induction l with
  | nil => rfl
  | cons b rest ih => simp [modifyAt, ih]

theorem mem_dedupConsec {l : List Nat} {x : Nat} : x ∈ dedupConsec l ↔ x ∈ l := by
  induction l with
  | nil => simp [dedupConsec]
  | cons a rest ih =>
    cases rest with
    | nil => simp [dedupConsec]
    | cons b rest' =>
      simp only [dedupConsec]
      by_cases hab : a = b
      · rw [if_pos hab, ih]
        subst hab
        constructor
        · intro h
          exact List.mem_cons.mpr (Or.inr h)
        · intro h
          rcases List.mem_cons.mp h with he | he
          · exact he ▸ List.mem_cons_self a rest'
          · exact he
      · rw [if_neg hab]
        constructor
        · intro h
          rcases List.mem_cons.mp h with he | he
          · exact he ▸ List.mem_cons_self x _
          · exact List.mem_cons.mpr (Or.inr (ih.mp he))
        · intro h
          rcases List.mem_cons.mp h with he | he
          · exact he ▸ List.mem_cons_self x _
          · exact List.mem_cons.mpr (Or.inr (ih.mpr he))

theorem dedupConsec_sorted {l : List Nat} (h : l.Sorted (· ≤ ·)) :
    (dedupConsec l).Sorted (· < ·) := by
  induction l with
  | nil => simp [dedupConsec]
  | cons a rest ih =>
    cases rest with
    | nil => simp [dedupConsec]
    | cons b rest' =>
      have hrest : (b :: rest').Sorted (· ≤ ·) := (List.sorted_cons.mp h).2
      have hab : a ≤ b := (List.sorted_cons.mp h).1 b (List.mem_cons_self b rest')
      simp only [dedupConsec]
      by_cases heq : a = b
      · rw [if_pos heq]
        exact ih hrest
      · rw [if_neg heq]
        rw [List.sorted_cons]
        refine ⟨?_, ih hrest⟩
        intro x hx
        have hxm : x ∈ b :: rest' := mem_dedupConsec.mp hx
        have hbx : b ≤ x := by
          rcases List.mem_cons.mp hxm with he | he
          · exact he ▸ le_refl b
          · exact (List.sorted_cons.mp hrest).1 x he
        omega

/-! ## Grouping pass invariants -/

theorem lookupIdx_mem {root idx : Nat} : ∀ {l : List (Nat × Nat)},
    lookupIdx root l = some idx → (root, idx) ∈ l := by
  intro l
  induction l with
  | nil => intro h; cases h
  | cons p rest ih =>
    intro h
    by_cases hp : p.1 = root
    · simp only [lookupIdx, if_pos hp, Option.some.injEq] at h
      have : p = (root, idx) := by
        obtain ⟨p1, p2⟩ := p
        simp only at hp h
        rw [hp, h]
      exact this ▸ List.mem_cons_self p rest
    · simp only [lookupIdx, if_neg hp] at h
      exact List.mem_cons.mpr (Or.inr (ih h))

theorem groupStep_untouched (touched : List Bool) (st : GroupState) (v : Nat)
    (h : ¬ touched.getD v false = true) : groupStep touched st v = st := by
  unfold groupStep
  rw [if_neg h]

theorem groupStep_touched_some (touched : List Bool) (st : GroupState) (v idx : Nat)
    (ht : touched.getD v false = true)
    (hlook : lookupIdx (st.dsu.find v).1 st.rootToComponent = some idx) :
    groupStep touched st v =
      { st with
        dsu := (st.dsu.find v).2
        components := modifyAt st.components idx
          (fun comp => { comp with variable_ids := comp.variable_ids ++ [v] }) } := by
  unfold groupStep
  rw [if_pos ht]
  simp only [hlook]

theorem groupStep_touched_none (touched : List Bool) (st : GroupState) (v : Nat)
    (ht : touched.getD v false = true)
    (hlook : lookupIdx (st.dsu.find v).1 st.rootToComponent = none) :
    groupStep touched st v =
      { dsu := (st.dsu.find v).2
        rootToComponent := st.rootToComponent ++ [((st.dsu.find v).1, st.components.length)]
        components := st.components ++ [⟨[v], []⟩] } := by
  unfold groupStep
  rw [if_pos ht]
  simp only [hlook]
  have hlen : (st.components ++ [(⟨[], []⟩ : ConstraintComponent)]).length - 1 =
      st.components.length := by simp
  rw [hlen, modifyAt_append_last]
  rfl

theorem groupFold_inv (touched : List Bool) (vs : List Nat) :
    ∀ st : GroupState,
      (∀ p ∈ st.rootToComponent, p.2 < st.components.length) →
      (∀ comp ∈ st.components, comp.equation_ids = []) →
      ((∀ p ∈ (vs.foldl (groupStep touched) st).rootToComponent,
          p.2 < (vs.foldl (groupStep touched) st).components.length) ∧
       (∀ comp ∈ (vs.foldl (groupStep touched) st).components, comp.equation_ids = []) ∧
       List.Perm
         (((vs.foldl (groupStep touched) st).components.map
           (fun c => c.variable_ids)).flatten)
         ((st.components.map (fun c => c.variable_ids)).flatten ++
           vs.filter (fun v => touched.getD v false))) := by
  induction vs with
  | nil =>
    intro st h1 h2
    refine ⟨h1, h2, ?_⟩
    simp
  | cons v rest ih =>
    intro st h1 h2
    simp only [List.foldl_cons, List.filter_cons]
    by_cases ht : touched.getD v false = true
    · rw [if_pos (by simpa using ht)]
      have hstep : (∀ p ∈ (groupStep touched st v).rootToComponent,
            p.2 < (groupStep touched st v).components.length) ∧
          (∀ comp ∈ (groupStep touched st v).components, comp.equation_ids = []) ∧
          List.Perm (((groupStep touched st v).components.map
              (fun c => c.variable_ids)).flatten)
            ((st.components.map (fun c => c.variable_ids)).flatten ++ [v]) := by
        cases hlook : lookupIdx (st.dsu.find v).1 st.rootToComponent with
        | some idx =>
          have hidx : idx < st.components.length := h1 _ (lookupIdx_mem hlook)
          rw [groupStep_touched_some touched st v idx ht hlook]
          refine ⟨?_, ?_, ?_⟩
          · intro p hp
            simp only [modifyAt_length]
            exact h1 p hp
          · intro comp hcomp
            simp only [] at hcomp
            rcases mem_modifyAt hcomp with hm | ⟨b, hb, hx⟩
            · exact h2 comp hm
            · rw [hx]
              exact h2 b hb
          · simp only []
            have hmap := @map_modifyAt_comm ConstraintComponent (List Nat)
              (fun comp => { comp with variable_ids := comp.variable_ids ++ [v] })
              (fun c => c.variable_ids) (fun s => s ++ [v])
              (fun a => rfl) st.components idx
            rw [hmap]
            exact flatten_modifyAt_append_perm _ v idx (by simpa using hidx)
        | none =>
          rw [groupStep_touched_none touched st v ht hlook]
          refine ⟨?_, ?_, ?_⟩
          · intro p hp
            simp only [] at hp
            simp only [List.length_append, List.length_singleton]
            rcases List.mem_append.mp hp with hm | hm
            · have := h1 p hm
              omega
            · rcases List.mem_singleton.mp hm with rfl
              simp
          · intro comp hcomp
            simp only [] at hcomp
            rcases List.mem_append.mp hcomp with hm | hm
            · exact h2 comp hm
            · rcases List.mem_singleton.mp hm with rfl
              rfl
          · simp only [List.map_append, List.flatten_append]
            simp
      obtain ⟨hi1, hi2, hperm⟩ := hstep
      obtain ⟨g1, g2, g3⟩ := ih (groupStep touched st v) hi1 hi2
      refine ⟨g1, g2, ?_⟩
      have hcat := List.Perm.append_right (rest.filter (fun v => touched.getD v false)) hperm
      have hassoc : ((st.components.map (fun c => c.variable_ids)).flatten ++ [v]) ++
          rest.filter (fun v => touched.getD v false) =
          (st.components.map (fun c => c.variable_ids)).flatten ++
            (v :: rest.filter (fun v => touched.getD v false)) := by
        rw [List.append_assoc]
        rfl
      rw [hassoc] at hcat
      exact g3.trans hcat
    · rw [if_neg (by simpa using ht), groupStep_untouched touched st v ht]
      exact ih st h1 h2

theorem groupTouched_spec (variable_count : Nat) (dsu : Dsu) (touched : List Bool) :
    (∀ p ∈ (groupTouched variable_count dsu touched).rootToComponent,
      p.2 < (groupTouched variable_count dsu touched).components.length) ∧
    (∀ comp ∈ (groupTouched variable_count dsu touched).components,
      comp.equation_ids = []) ∧
    List.Perm
      (((groupTouched variable_count dsu touched).components.map
        (fun c => c.variable_ids)).flatten)
      ((List.range variable_count).filter (fun v => touched.getD v false)) := by
  have h := groupFold_inv touched (List.range variable_count) ⟨dsu, [], []⟩
    (by intro p hp; cases hp) (by intro c hc; cases hc)
  simpa [groupTouched] using h

/-! ## Attachment pass invariants -/

theorem rootsFold_map_proj (r2c : List (Nat × Nat)) (eqid : Nat) (roots : List Nat) :
    ∀ comps : List ConstraintComponent,
      ((roots.foldl (fun comps root =>
        match lookupIdx root r2c with
        | some idx => modifyAt comps idx
            (fun comp => { comp with equation_ids := comp.equation_ids ++ [eqid] })
        | none => comps) comps).map (fun c => c.variable_ids)) =
        comps.map (fun c => c.variable_ids) := by
  induction roots with
  | nil => intro comps; rfl
  | cons r rest ih =>
    intro comps
    simp only [List.foldl_cons]
    rw [ih]
    cases hlook : lookupIdx r r2c with
    | some idx =>
      simp only [hlook]
      exact @map_modifyAt_of_proj ConstraintComponent (List Nat)
        (fun comp => { comp with equation_ids := comp.equation_ids ++ [eqid] })
        (fun c => c.variable_ids) (fun a => rfl) comps idx
    | none => simp only [hlook]

theorem rootsFold_eqids (r2c : List (Nat × Nat)) (eqid : Nat) (Q : Nat → Prop)
    (hQ : Q eqid) (roots : List Nat) :
    ∀ comps : List ConstraintComponent,
      (∀ comp ∈ comps, ∀ x ∈ comp.equation_ids, Q x) →
      ∀ comp ∈ roots.foldl (fun comps root =>
        match lookupIdx root r2c with
        | some idx => modifyAt comps idx
            (fun comp => { comp with equation_ids := comp.equation_ids ++ [eqid] })
        | none => comps) comps, ∀ x ∈ comp.equation_ids, Q x := by
  induction roots with
  | nil => intro comps h; exact h
  | cons r rest ih =>
    intro comps h
    simp only [List.foldl_cons]
    apply ih
    cases hlook : lookupIdx r r2c with
    | some idx =>
      simp only [hlook]
      intro comp hcomp x hx
      rcases mem_modifyAt hcomp with hm | ⟨b, hb, hbx⟩
      · exact h comp hm x hx
      · rw [hbx] at hx
        simp only [] at hx
        rcases List.mem_append.mp hx with hm2 | hm2
        · exact h b hb x hm2
        · rcases List.mem_singleton.mp hm2 with rfl
          exact hQ
    | none =>
      simp only [hlook]
      exact h

theorem attachStep_not_local (touched : List Bool)
    (st : List ConstraintComponent × Dsu × List (Nat × Nat)) (e : ConstraintEquation)
    (h : ¬ e.kind.isLocalClue = true) : attachStep touched st e = st := by
  unfold attachStep
  rw [if_neg h]

theorem attachStep_fst_map (touched : List Bool)
    (st : List ConstraintComponent × Dsu × List (Nat × Nat)) (e : ConstraintEquation) :
    ((attachStep touched st e).1).map (fun c => c.variable_ids) =
      (st.1).map (fun c => c.variable_ids) := by
  unfold attachStep
  by_cases hloc : e.kind.isLocalClue
  · rw [if_pos hloc]
    exact rootsFold_map_proj st.2.2 e.id _ st.1
  · rw [if_neg hloc]

theorem attachStep_eqids (touched : List Bool)
    (st : List ConstraintComponent × Dsu × List (Nat × Nat)) (e : ConstraintEquation)
    (Q : Nat → Prop) (hQe : e.kind.isLocalClue → Q e.id)
    (hin : ∀ comp ∈ st.1, ∀ x ∈ comp.equation_ids, Q x) :
    ∀ comp ∈ (attachStep touched st e).1, ∀ x ∈ comp.equation_ids, Q x := by
  unfold attachStep
  by_cases hloc : e.kind.isLocalClue
  · rw [if_pos hloc]
    exact rootsFold_eqids st.2.2 e.id Q (hQe hloc) _ st.1 hin
  · rw [if_neg hloc]
    exact hin

theorem attachFold_fst_map (touched : List Bool) (eqs : List ConstraintEquation) :
    ∀ st : List ConstraintComponent × Dsu × List (Nat × Nat),
      ((eqs.foldl (attachStep touched) st).1).map (fun c => c.variable_ids) =
        (st.1).map (fun c => c.variable_ids) := by
  induction eqs with
  | nil => intro st; rfl
  | cons e rest ih =>
    intro st
    simp only [List.foldl_cons]
    rw [ih, attachStep_fst_map]

theorem attachFold_eqids (touched : List Bool) (eqs : List ConstraintEquation)
    (Q : Nat → Prop) (hq : ∀ e ∈ eqs, e.kind.isLocalClue → Q e.id) :
    ∀ st : List ConstraintComponent × Dsu × List (Nat × Nat),
      (∀ comp ∈ st.1, ∀ x ∈ comp.equation_ids, Q x) →
      ∀ comp ∈ (eqs.foldl (attachStep touched) st).1, ∀ x ∈ comp.equation_ids, Q x := by
  induction eqs with
  | nil => intro st h; exact h
  | cons e rest ih =>
    intro st h
    simp only [List.foldl_cons]
    apply ih
    · intro e' he' hloc
      exact hq e' (List.mem_cons.mpr (Or.inr he')) hloc
    · exact attachStep_eqids touched st e Q (hq e (List.mem_cons_self e rest)) h

theorem attachEquations_map (eqs : List ConstraintEquation)
    (comps : List ConstraintComponent) (dsu : Dsu) (r2c : List (Nat × Nat))
    (touched : List Bool) :
    (attachEquations eqs comps dsu r2c touched).map (fun c => c.variable_ids) =
      comps.map (fun c => c.variable_ids) := by
  unfold attachEquations
  exact attachFold_fst_map touched eqs (comps, dsu, r2c)

theorem attachEquations_eqids (eqs : List ConstraintEquation)
    (comps : List ConstraintComponent) (dsu : Dsu) (r2c : List (Nat × Nat))
    (touched : List Bool) (hbase : ∀ comp ∈ comps, comp.equation_ids = []) :
    ∀ comp ∈ attachEquations eqs comps dsu r2c touched, ∀ x ∈ comp.equation_ids,
      ∃ e ∈ eqs, e.kind.isLocalClue ∧ e.id = x := by
  unfold attachEquations
  exact attachFold_eqids touched eqs
    (fun x => ∃ e ∈ eqs, e.kind.isLocalClue ∧ e.id = x)
    (fun e he hloc => ⟨e, he, hloc, rfl⟩) (comps, dsu, r2c)
    (by
      intro comp hcomp x hx
      rw [hbase comp hcomp] at hx
      cases hx)

/-! ## build_components: the master specification -/

theorem build_components_spec (n : Nat) (eqs : List ConstraintEquation) :
    (∀ v : Nat, (∃ comp ∈ (build_components n eqs).1, v ∈ comp.variable_ids) ↔
        (v < n ∧ ∃ e ∈ eqs, e.kind.isLocalClue ∧ v ∈ e.variable_ids)) ∧
    (∀ v : Nat, v ∈ (build_components n eqs).2 ↔
        (v < n ∧ ¬ ∃ e ∈ eqs, e.kind.isLocalClue ∧ v ∈ e.variable_ids)) ∧
    (build_components n eqs).1.Pairwise
      (fun c1 c2 => ∀ v, v ∈ c1.variable_ids → v ∉ c2.variable_ids) ∧
    (∀ comp ∈ (build_components n eqs).1,
      comp.variable_ids.Sorted (· < ·) ∧ comp.equation_ids.Sorted (· < ·)) ∧
    (∀ comp ∈ (build_components n eqs).1, ∀ x ∈ comp.equation_ids,
      ∃ e ∈ eqs, e.kind.isLocalClue ∧ e.id = x) := by
  obtain ⟨ginv1, ginv2, gperm⟩ :=
    groupTouched_spec n (markTouched n eqs).1 (markTouched n eqs).2
  have hattmap := attachEquations_map eqs
    (groupTouched n (markTouched n eqs).1 (markTouched n eqs).2).components
    (groupTouched n (markTouched n eqs).1 (markTouched n eqs).2).dsu
    (groupTouched n (markTouched n eqs).1 (markTouched n eqs).2).rootToComponent
    (markTouched n eqs).2
  have hcomps : (build_components n eqs).1 = sortComponents (attachEquations eqs
      (groupTouched n (markTouched n eqs).1 (markTouched n eqs).2).components
      (groupTouched n (markTouched n eqs).1 (markTouched n eqs).2).dsu
      (groupTouched n (markTouched n eqs).1 (markTouched n eqs).2).rootToComponent
      (markTouched n eqs).2) := rfl
  have hunc : (build_components n eqs).2 = (List.range n).filter
      (fun var => ! (markTouched n eqs).2.getD var false) := rfl
  -- the flattened variable-id lists of the attached components
  have hflat_nodup :
      ((attachEquations eqs
        (groupTouched n (markTouched n eqs).1 (markTouched n eqs).2).components
        (groupTouched n (markTouched n eqs).1 (markTouched n eqs).2).dsu
        (groupTouched n (markTouched n eqs).1 (markTouched n eqs).2).rootToComponent
        (markTouched n eqs).2).map (fun c => c.variable_ids)).flatten.Nodup := by
    rw [hattmap]
    exact (List.Perm.nodup_iff gperm).mpr ((List.nodup_range n).filter _)
  have hsub_nodup : ∀ comp ∈ attachEquations eqs
      (groupTouched n (markTouched n eqs).1 (markTouched n eqs).2).components
      (groupTouched n (markTouched n eqs).1 (markTouched n eqs).2).dsu
      (groupTouched n (markTouched n eqs).1 (markTouched n eqs).2).rootToComponent
      (markTouched n eqs).2, comp.variable_ids.Nodup := by
    intro comp hcomp
    exact (List.nodup_flatten.mp hflat_nodup).1 _ (List.mem_map_of_mem _ hcomp)
  have hpair_disj : ((attachEquations eqs
      (groupTouched n (markTouched n eqs).1 (markTouched n eqs).2).components
      (groupTouched n (markTouched n eqs).1 (markTouched n eqs).2).dsu
      (groupTouched n (markTouched n eqs).1 (markTouched n eqs).2).rootToComponent
      (markTouched n eqs).2).map (fun c => c.variable_ids)).Pairwise List.Disjoint :=
    (List.nodup_flatten.mp hflat_nodup).2
  -- membership in the final components
  have hmem_final : ∀ v : Nat,
      (∃ comp ∈ (build_components n eqs).1, v ∈ comp.variable_ids) ↔
        (markTouched n eqs).2.getD v false = true := by
    intro v
    rw [hcomps]
    constructor
    · rintro ⟨comp, hcomp, hv⟩
      obtain ⟨c, hc, hgc⟩ := List.mem_map.mp hcomp
      rw [← hgc] at hv
      simp only [sortComponents] at hv
      have hv' : v ∈ c.variable_ids :=
        (List.perm_insertionSort (· ≤ ·) c.variable_ids).mem_iff.mp hv
      have hflat : v ∈ ((attachEquations eqs
          (groupTouched n (markTouched n eqs).1 (markTouched n eqs).2).components
          (groupTouched n (markTouched n eqs).1 (markTouched n eqs).2).dsu
          (groupTouched n (markTouched n eqs).1 (markTouched n eqs).2).rootToComponent
          (markTouched n eqs).2).map (fun c => c.variable_ids)).flatten :=
        List.mem_flatten.mpr ⟨c.variable_ids, List.mem_map_of_mem _ hc, hv'⟩
      rw [hattmap] at hflat
      have := gperm.mem_iff.mp hflat
      exact (List.mem_filter.mp this).2
    · intro ht
      have hv : v ∈ (List.range n).filter
          (fun v => (markTouched n eqs).2.getD v false) := by
        apply List.mem_filter.mpr
        refine ⟨List.mem_range.mpr ?_, ht⟩
        by_contra hge
        have hlen := touched_length n eqs
        have : (markTouched n eqs).2.getD v false = false := by
          rw [List.getD_eq_default]
          rw [hlen]
          exact Nat.le_of_not_lt hge
        rw [this] at ht
        cases ht
      have hflat := gperm.mem_iff.mpr hv
      rw [← hattmap] at hflat
      obtain ⟨s, hs, hvs⟩ := List.mem_flatten.mp hflat
      obtain ⟨c, hc, hcs⟩ := List.mem_map.mp hs
      refine ⟨{ variable_ids := List.insertionSort (· ≤ ·) c.variable_ids
                equation_ids := dedupConsec (List.insertionSort (· ≤ ·) c.equation_ids) },
        List.mem_map_of_mem _ hc, ?_⟩
      simp only []
      rw [← hcs] at hvs
      exact (List.perm_insertionSort (· ≤ ·) c.variable_ids).mem_iff.mpr hvs
  refine ⟨?_, ?_, ?_, ?_, ?_⟩
  · intro v
    rw [hmem_final v, touched_getD]
  · intro v
    rw [hunc]
    constructor
    · intro h
      obtain ⟨hr, hb⟩ := List.mem_filter.mp h
      have hnr : ¬ (markTouched n eqs).2.getD v false = true := by
        simpa using hb
      refine ⟨List.mem_range.mp hr, ?_⟩
      intro hex
      apply hnr
      rw [touched_getD]
      exact ⟨List.mem_range.mp hr, hex⟩
    · rintro ⟨hlt, hnex⟩
      apply List.mem_filter.mpr
      refine ⟨List.mem_range.mpr hlt, ?_⟩
      have : ¬ (markTouched n eqs).2.getD v false = true := by
        rw [touched_getD]
        rintro ⟨_, hex⟩
        exact hnex hex
      simpa using this
  · rw [hcomps]
    have hmapped : ((sortComponents (attachEquations eqs
        (groupTouched n (markTouched n eqs).1 (markTouched n eqs).2).components
        (groupTouched n (markTouched n eqs).1 (markTouched n eqs).2).dsu
        (groupTouched n (markTouched n eqs).1 (markTouched n eqs).2).rootToComponent
        (markTouched n eqs).2)).map (fun c => c.variable_ids)).Pairwise List.Disjoint := by
      simp only [sortComponents, List.map_map]
      rw [List.pairwise_map]
      rw [List.pairwise_map] at hpair_disj
      apply hpair_disj.imp
      intro a b hd x hx1 hx2
      exact hd ((List.perm_insertionSort (· ≤ ·) a.variable_ids).mem_iff.mp hx1)
        ((List.perm_insertionSort (· ≤ ·) b.variable_ids).mem_iff.mp hx2)
    rw [List.pairwise_map] at hmapped
    exact hmapped.imp (fun hd v hv1 hv2 => hd hv1 hv2)
  · rw [hcomps]
    intro comp hcomp
    obtain ⟨c, hc, hgc⟩ := List.mem_map.mp hcomp
    rw [← hgc]
    simp only [sortComponents]
    constructor
    · apply List.Sorted.lt_of_le
      · exact List.sorted_insertionSort (· ≤ ·) c.variable_ids
      · exact ((List.perm_insertionSort (· ≤ ·) c.variable_ids).nodup_iff).mpr
          (hsub_nodup c hc)
    · exact dedupConsec_sorted (List.sorted_insertionSort (· ≤ ·) c.equation_ids)
  · rw [hcomps]
    intro comp hcomp x hx
    obtain ⟨c, hc, hgc⟩ := List.mem_map.mp hcomp
    rw [← hgc] at hx
    simp only [sortComponents] at hx
    have hx' : x ∈ c.equation_ids :=
      (List.perm_insertionSort (· ≤ ·) c.equation_ids).mem_iff.mp (mem_dedupConsec.mp hx)
    exact attachEquations_eqids eqs _ _ _ _ ginv2 c hc x hx'

/-! ## Filter invariance of componentization (for C5) -/

theorem foldl_skip_filter {α β : Type} (f : β → α → β) (p : α → Bool)
    (hf : ∀ b a, ¬ p a = true → f b a = b) :
    ∀ (l : List α) (b : β), l.foldl f b = (l.filter p).foldl f b := by
  intro l
  induction l with
  | nil => intro b; rfl
  | cons a rest ih =>
    intro b
    by_cases hp : p a = true
    · simp only [List.foldl_cons, List.filter_cons, if_pos hp]
      exact ih (f b a)
    · simp only [List.foldl_cons, List.filter_cons, if_neg hp, hf b a hp]
      exact ih b

theorem markTouched_filter (n : Nat) (eqs : List ConstraintEquation) :
    markTouched n eqs = markTouched n (eqs.filter (fun e => e.kind.isLocalClue)) := by
  unfold markTouched
  apply foldl_skip_filter
  intro st e hloc
  rw [if_neg hloc]

theorem attachEquations_filter (eqs : List ConstraintEquation)
    (comps : List ConstraintComponent) (dsu : Dsu) (r2c : List (Nat × Nat))
    (touched : List Bool) :
    attachEquations eqs comps dsu r2c touched =
      attachEquations (eqs.filter (fun e => e.kind.isLocalClue)) comps dsu r2c touched := by
  unfold attachEquations
  rw [foldl_skip_filter (attachStep touched) (fun e => e.kind.isLocalClue)
    (fun st e h => attachStep_not_local touched st e h) eqs (comps, dsu, r2c)]

theorem build_components_filter (n : Nat) (eqs : List ConstraintEquation) :
    build_components n eqs =
      build_components n (eqs.filter (fun e => e.kind.isLocalClue)) := by
  simp only [build_components]
  rw [markTouched_filter n eqs, attachEquations_filter eqs]

/-! ## Claims C4, C5, C10 -/

theorem build_constraints_cases (obs : Observation) (cfg : AnalysisConfig) :
    (build_constraints obs cfg).problem.components = [] ∨
      build_constraints obs cfg = build_main obs cfg := by
  simp only [build_constraints]
  split_ifs with h
  · left; rfl
  · cases hm : obs.mine_count with
    | none => right; rfl
    | some mc =>
      simp only []
      by_cases hlt : mult obs.size.1 obs.size.2 < mc
      · rw [if_pos hlt]
        left; rfl
      · rw [if_neg hlt]
        right; rfl

theorem localEqsFrom_mem_id_lt (obs : Observation) (cfg : AnalysisConfig)
    {e : ConstraintEquation}
    (h : e ∈ localEqsFrom obs cfg 0 (scanCoords obs.size)) :
    e.id < (localEqsFrom obs cfg 0 (scanCoords obs.size)).length := by
  obtain ⟨i, hi⟩ := List.mem_iff_getElem?.mp h
  have hid := localEqsFrom_id obs cfg _ 0 i hi
  have hlt := (List.getElem?_eq_some.mp hi).1
  omega

/-- C4: for every observation passing validation, the component variable-id
sets of the returned problem are pairwise disjoint; their union together with
the unconstrained ids is exactly the full id range (membership on either side
iff the id is below `variable_count`), with no overlap between components and
the unconstrained list; a variable id is unconstrained exactly when it appears
in no `LocalClue` equation; and every component's variable-id and equation-id
lists are strictly sorted ascending (hence deduplicated). -/
theorem claim_C4 (obs : Observation) (cfg : AnalysisConfig)
    (h1 : obs.revealed.dim = (obs.size.1, obs.size.2))
    (h2 : obs.flags.dim = (obs.size.1, obs.size.2))
    (hmc : ∀ mc, obs.mine_count = some mc → mc ≤ mult obs.size.1 obs.size.2) :
    (build_constraints obs cfg).problem.components.Pairwise
      (fun c1 c2 => ∀ v, v ∈ c1.variable_ids → v ∉ c2.variable_ids) ∧
    (∀ v : Nat,
      ((∃ comp ∈ (build_constraints obs cfg).problem.components, v ∈ comp.variable_ids) ∨
        v ∈ (build_constraints obs cfg).problem.unconstrained_variable_ids) ↔
      v < (build_constraints obs cfg).problem.variables'.length) ∧
    (∀ v ∈ (build_constraints obs cfg).problem.unconstrained_variable_ids,
      ∀ comp ∈ (build_constraints obs cfg).problem.components, v ∉ comp.variable_ids) ∧
    (∀ v : Nat,
      v ∈ (build_constraints obs cfg).problem.unconstrained_variable_ids ↔
      (v < (build_constraints obs cfg).problem.variables'.length ∧
        ∀ e ∈ (build_constraints obs cfg).problem.equations,
          e.kind.isLocalClue → v ∉ e.variable_ids)) ∧
    (∀ comp ∈ (build_constraints obs cfg).problem.components,
      comp.variable_ids.Sorted (· < ·) ∧ comp.equation_ids.Sorted (· < ·)) := by
  rw [build_constraints_valid obs cfg h1 h2 hmc]
  obtain ⟨s1, s2, s3, s4, s5⟩ :=
    build_components_spec (buildVariables obs).length (build_main obs cfg).problem.equations
  rw [← build_main_components obs cfg] at s1 s3 s4 s5
  rw [← build_main_unconstrained obs cfg] at s2
  have hn : (build_main obs cfg).problem.variables'.length = (buildVariables obs).length := by
    rw [build_main_variables]
  refine ⟨s3, ?_, ?_, ?_, s4⟩
  · intro v
    rw [hn]
    constructor
    · rintro (hcomp | hunc)
      · exact ((s1 v).mp hcomp).1
      · exact ((s2 v).mp hunc).1
    · intro hlt
      by_cases hex : ∃ e ∈ (build_main obs cfg).problem.equations,
          e.kind.isLocalClue ∧ v ∈ e.variable_ids
      · exact Or.inl ((s1 v).mpr ⟨hlt, hex⟩)
      · exact Or.inr ((s2 v).mpr ⟨hlt, hex⟩)
  · intro v hunc comp hcomp hv
    have hno := ((s2 v).mp hunc).2
    exact hno ((s1 v).mp ⟨comp, hcomp, hv⟩).2
  · intro v
    rw [hn, s2 v]
    constructor
    · rintro ⟨hlt, hno⟩
      refine ⟨hlt, ?_⟩
      intro e he hloc hv
      exact hno ⟨e, he, hloc, hv⟩
    · rintro ⟨hlt, hall⟩
      refine ⟨hlt, ?_⟩
      rintro ⟨e, he, hloc, hv⟩
      exact hall e he hloc hv

/-- Witness for C4 on the 5-by-1 board: the instantiated pairwise-disjointness
and sortedness conclusions. -/
theorem claim_C4_witness :
    (build_constraints obsA cfgSI).problem.components.Pairwise
      (fun c1 c2 => ∀ v, v ∈ c1.variable_ids → v ∉ c2.variable_ids) ∧
    (∀ comp ∈ (build_constraints obsA cfgSI).problem.components,
      comp.variable_ids.Sorted (· < ·) ∧ comp.equation_ids.Sorted (· < ·)) :=
  ⟨(claim_C4 obsA cfgSI rfl rfl (fun mc h => by cases h)).1,
    (claim_C4 obsA cfgSI rfl rfl (fun mc h => by cases h)).2.2.2.2⟩

/-- C5: the `GlobalMineCount` equation is never used during componentization:
`build_components` gives the same result when all non-`LocalClue` equations are
filtered out (so only local clues participate in the union-find and
equation-assignment passes), and the global equation's id never appears in any
component's `equation_ids` list. -/
theorem claim_C5 :
    (∀ (obs : Observation) (cfg : AnalysisConfig) (g : ConstraintEquation),
      g ∈ (build_constraints obs cfg).problem.equations →
      g.kind = EquationKind.GlobalMineCount →
      ∀ comp ∈ (build_constraints obs cfg).problem.components,
        g.id ∉ comp.equation_ids) ∧
    (∀ (n : Nat) (eqs : List ConstraintEquation),
      build_components n eqs =
        build_components n (eqs.filter (fun e => e.kind.isLocalClue))) := by
  constructor
  · intro obs cfg g hg hkind comp hcomp hmem
    rcases build_constraints_cases obs cfg with hempty | hmain
    · rw [hempty] at hcomp
      cases hcomp
    · rw [hmain] at hg hcomp
      obtain ⟨_, _, _, _, s5⟩ :=
        build_components_spec (buildVariables obs).length (build_main obs cfg).problem.equations
      rw [← build_main_components obs cfg] at s5
      obtain ⟨e, he, hloc, hid⟩ := s5 comp hcomp g.id hmem
      -- the local equation e has id < L, while the global equation has id = L
      have hgid : g.id = (localEqsFrom obs cfg 0 (scanCoords obs.size)).length := by
        rcases mem_build_main_equations obs cfg hg with hm | ⟨_, hid', _⟩
        · obtain ⟨c, _, _, _, _, hk, _, _⟩ := of_mem_localEqsFrom obs cfg hm
          rw [hkind] at hk
          cases hk
        · exact hid'
      have heid : e.id < (localEqsFrom obs cfg 0 (scanCoords obs.size)).length := by
        rcases mem_build_main_equations obs cfg he with hm | ⟨hk, _, _⟩
        · exact localEqsFrom_mem_id_lt obs cfg hm
        · rw [hk] at hloc
          cases hloc
      omega
  · intro n eqs
    exact build_components_filter n eqs

/-- Witness for C5 on the 2-by-2 board with known mine count: the global
equation (id 1) is present and its id appears in no component. -/
theorem claim_C5_witness :
    (⟨1, EquationKind.GlobalMineCount, [0, 1, 2], 1⟩ : ConstraintEquation) ∈
      (build_constraints obsB cfgSU).problem.equations ∧
    ∀ comp ∈ (build_constraints obsB cfgSU).problem.components,
      (1 : Nat) ∉ comp.equation_ids :=
  ⟨by decide,
    fun comp hc =>
      claim_C5.1 obsB cfgSU ⟨1, EquationKind.GlobalMineCount, [0, 1, 2], 1⟩
        (by decide) rfl comp hc⟩

/-- C10: under Strict flag semantics, for an observation passing validation,
every flagged variable is excluded from the variable-id list of every equation
(local and global), belongs to no component, and its id appears in
`unconstrained_variable_ids`. -/
theorem claim_C10 (obs : Observation) (cfg : AnalysisConfig)
    (h1 : obs.revealed.dim = (obs.size.1, obs.size.2))
    (h2 : obs.flags.dim = (obs.size.1, obs.size.2))
    (hmc : ∀ mc, obs.mine_count = some mc → mc ≤ mult obs.size.1 obs.size.2)
    (hstrict : cfg.flag_semantics = FlagSemantics.Strict)
    (v : ConstraintVariable) (hv : v ∈ (build_constraints obs cfg).problem.variables')
    (hflag : v.flagged = true) :
    (∀ e ∈ (build_constraints obs cfg).problem.equations, v.id ∉ e.variable_ids) ∧
    (∀ comp ∈ (build_constraints obs cfg).problem.components, v.id ∉ comp.variable_ids) ∧
    v.id ∈ (build_constraints obs cfg).problem.unconstrained_variable_ids := by
  rw [build_constraints_valid obs cfg h1 h2 hmc] at hv ⊢
  rw [build_main_variables] at hv
  obtain ⟨i, hi⟩ := List.mem_iff_getElem?.mp hv
  rw [buildVariables_getElem?] at hi
  obtain ⟨c, hc, hvi⟩ := Option.map_eq_some'.mp hi
  have hvid : v.id = i := by rw [← hvi]
  have hvcoords : v.coords = c := by rw [← hvi]
  have hvflag : obs.flags.get c = true := by
    rw [← hvi] at hflag
    simpa using hflag
  have hilt : i < (buildVariables obs).length := by
    rw [buildVariables_length]
    exact (List.getElem?_eq_some.mp hc).1
  have hnolocal : ∀ e ∈ (build_main obs cfg).problem.equations,
      e.kind.isLocalClue → v.id ∉ e.variable_ids := by
    intro e he hloc hmem
    rcases mem_build_main_equations obs cfg he with hm | ⟨hk, _, _⟩
    · obtain ⟨clue, hcl, m, hrev, _, _, hvars, _⟩ := of_mem_localEqsFrom obs cfg hm
      rw [hvars] at hmem
      rw [scanClueNeighbors_vars_filterMap obs cfg clue m
        (fun nb hnb hh =>
          variableIdAt_isSome_of_hidden obs (neighbor_mem_scanCoords obs h1 hnb) hh)] at hmem
      obtain ⟨nb, _, hfnb⟩ := List.mem_filterMap.mp hmem
      by_cases hrevnb : (obs.revealed.get nb).isSome
      · rw [if_pos hrevnb] at hfnb
        cases hfnb
      · rw [if_neg hrevnb] at hfnb
        by_cases hflagnb : cfg.flag_semantics = FlagSemantics.Strict ∧ obs.flags.get nb
        · rw [if_pos hflagnb] at hfnb
          cases hfnb
        · rw [if_neg hflagnb] at hfnb
          have hnb_eq : nb = c := by
            have hidn := idxOf?_eq_some (hvid ▸ hfnb)
            rw [hidn] at hc
            exact (Option.some.injEq _ _).mp hc
          apply hflagnb
          rw [hstrict, hnb_eq, hvflag]
          exact ⟨rfl, rfl⟩
    · rw [hk] at hloc
      cases hloc
  have hnoglobal : ∀ e ∈ (build_main obs cfg).problem.equations,
      e.kind = EquationKind.GlobalMineCount → v.id ∉ e.variable_ids := by
    intro e he hk hmem
    rcases mem_build_main_equations obs cfg he with hm | ⟨_, _, hvars⟩
    · obtain ⟨_, _, _, _, _, hk', _, _⟩ := of_mem_localEqsFrom obs cfg hm
      rw [hk] at hk'
      cases hk'
    · rw [hvars] at hmem
      obtain ⟨w, hw, hfw⟩ := List.mem_filterMap.mp hmem
      by_cases hcond : cfg.flag_semantics = FlagSemantics.Strict ∧ w.flagged
      · rw [if_pos hcond] at hfw
        cases hfw
      · rw [if_neg hcond] at hfw
        have hwid : w.id = v.id := by
          injection hfw
        obtain ⟨j, hj⟩ := List.mem_iff_getElem?.mp hw
        rw [buildVariables_getElem?] at hj
        obtain ⟨c', hc', hwj⟩ := Option.map_eq_some'.mp hj
        have hwjid : w.id = j := by rw [← hwj]
        have hji : j = i := by
          rw [← hwjid, hwid, hvid]
        rw [hji] at hc'
        rw [hc'] at hc
        have hcc : c' = c := (Option.some.injEq _ _).mp hc
        apply hcond
        refine ⟨hstrict, ?_⟩
        rw [← hwj]
        simp only []
        rw [hcc, hvflag]
  have hnone : ∀ e ∈ (build_main obs cfg).problem.equations, v.id ∉ e.variable_ids := by
    intro e he
    cases hk : e.kind with
    | LocalClue clue =>
      apply hnolocal e he
      rw [hk]
      rfl
    | GlobalMineCount => exact hnoglobal e he hk
  obtain ⟨s1, s2, _, _, _⟩ :=
    build_components_spec (buildVariables obs).length (build_main obs cfg).problem.equations
  rw [← build_main_components obs cfg] at s1
  rw [← build_main_unconstrained obs cfg] at s2
  refine ⟨hnone, ?_, ?_⟩
  · intro comp hcomp hmem
    obtain ⟨_, e, he, hloc, hvmem⟩ := (s1 v.id).mp ⟨comp, hcomp, hmem⟩
    exact hnone e he hvmem
  · apply (s2 v.id).mpr
    refine ⟨hvid ▸ hilt, ?_⟩
    rintro ⟨e, he, _, hvmem⟩
    exact hnone e he hvmem

/-- Witness for C10 on the 2-by-1 board with a Strict flagged cell: the single
flagged variable (id 0) is in no equation, in no component, and is listed
unconstrained. -/
theorem claim_C10_witness :
    (∀ e ∈ (build_constraints obsFlag cfgTI).problem.equations,
      (⟨0, (0, 0), true⟩ : ConstraintVariable).id ∉ e.variable_ids) ∧
    (∀ comp ∈ (build_constraints obsFlag cfgTI).problem.components,
      (⟨0, (0, 0), true⟩ : ConstraintVariable).id ∉ comp.variable_ids) ∧
    (⟨0, (0, 0), true⟩ : ConstraintVariable).id ∈
      (build_constraints obsFlag cfgTI).problem.unconstrained_variable_ids :=
  claim_C10 obsFlag cfgTI rfl rfl (fun mc h => by cases h) rfl
    ⟨0, (0, 0), true⟩ (by decide) rfl

end Detonito



















